import Mathlib

/-!
Verification development for the island-map generator
(`WorldBuilder.ts` / `BiomeManager`).

The generator is shallowly embedded: heights are rationals, axial
coordinates are pairs of integers, the tile grid is a list of tile
definitions keyed by position, the flood fill and the settlement loop are
fuel-indexed step functions (`none` models a run that does not finish).
The noise provider, neighbor enumeration, distance and random-tile
sampling live in `shared/HexUtil`, which is out of the embedded core; they
are modelled from their documented collaborator contracts.
-/

namespace IslandCrisis

/-- Axial hex coordinate, as in `HexUtil.AxialCoordinates`: a pair of
integers `(X, Z)` with implied cube coordinate `Y = -X-Z`. -/
structure Axial where
  X : ℤ
  Z : ℤ
deriving DecidableEq, Repr

/-- The map center `(0,0)`. -/
def origin : Axial := ⟨0, 0⟩

/-- Modelled from the spec: `cubeDistance(coordinate) -> integer`, the
hex-grid (cube) distance of a coordinate from the origin,
`(|X| + |Z| + |X+Z|) / 2`. -/
def cubeDistance (c : Axial) : ℕ :=
  (c.X.natAbs + c.Z.natAbs + (c.X + c.Z).natAbs) / 2

/-- Distance between two axial coordinates (cube distance of the
difference). -/
def axialDist (a b : Axial) : ℕ :=
  cubeDistance ⟨a.X - b.X, a.Z - b.Z⟩

/-- The list of integers `a, a+1, ..., b` (empty when `b < a`). -/
def intRange (a b : ℤ) : List ℤ :=
  (List.range (b + 1 - a).toNat).map fun i : ℕ => a + (i : ℤ)

/-- The axial coordinates enumerated by the double loop of
`BuildMapDefinition` (outer `cubeX` from `-R` to `R`, inner `cubeY`
bounded by `max(-R, -cubeX-R) .. min(R, -cubeX+R)`, tile coordinate
`(cubeX, -cubeX-cubeY)`). -/
def axialDisk (R : ℤ) : List Axial :=
  (intRange (-R) R).flatMap fun x =>
    (intRange (max (-R) (-x - R)) (min R (-x + R))).map fun y => ⟨x, -x - y⟩

/-- Modelled from the spec: `neighbors(coordinate, ringRadius)` returns all
coordinates within cube distance `ringRadius` of `coordinate`, excluding
the coordinate itself (`HexUtil.getNearbyCoordinates`). -/
def getNearbyCoordinates (c : Axial) (r : ℤ) : List Axial :=
  ((axialDisk r).filter fun d => decide (d ≠ origin)).map fun d =>
    ⟨c.X + d.X, c.Z + d.Z⟩

/-- The six ring-1 neighbors of a coordinate. -/
def ring1 (c : Axial) : List Axial := getNearbyCoordinates c 1

/- ### Basic facts about the coordinate enumeration -/

theorem intRange_length (a b : ℤ) : (intRange a b).length = (b + 1 - a).toNat := by
  simp [intRange]

theorem mem_intRange {a b v : ℤ} : v ∈ intRange a b ↔ a ≤ v ∧ v ≤ b := by
  simp only [intRange, List.mem_map, List.mem_range]
  constructor
  · rintro ⟨i, hi, rfl⟩
    omega
  · intro ⟨h1, h2⟩
    exact ⟨(v - a).toNat, by omega, by omega⟩

theorem intRange_nodup (a b : ℤ) : (intRange a b).Nodup := by
  refine List.Nodup.map ?_ (List.nodup_range _)
  intro i j h
  have h2 : a + (i : ℤ) = a + (j : ℤ) := h
  omega

theorem intRange_append (a b : ℤ) (h : a ≤ b + 1) :
    intRange a (b + 1) = intRange a b ++ [b + 1] := by
  unfold intRange
  have h2 : (b + 1 + 1 - a).toNat = (b + 1 - a).toNat + 1 := by omega
  rw [h2, List.range_succ, List.map_append]
  simp only [List.map_cons, List.map_nil]
  congr 2
  omega

theorem intRange_cons (a b : ℤ) (h : a ≤ b) :
    intRange a b = a :: intRange (a + 1) b := by
  unfold intRange
  have h2 : (b + 1 - a).toNat = (b + 1 - (a + 1)).toNat + 1 := by omega
  rw [h2, List.range_succ_eq_map]
  simp only [List.map_cons, List.map_map, Nat.cast_zero, add_zero]
  congr 1
  apply List.map_congr_left
  intro i _
  simp only [Function.comp]
  push_cast
  ring

theorem intRange_neg_succ (n : ℕ) :
    intRange (-((n : ℤ) + 1)) ((n : ℤ) + 1) =
      -((n : ℤ) + 1) :: (intRange (-(n : ℤ)) (n : ℤ) ++ [(n : ℤ) + 1]) := by
  rw [intRange_append _ _ (by omega), intRange_cons _ _ (by omega)]
  rw [show -((n : ℤ) + 1) + 1 = -(n : ℤ) from by ring]
  simp

theorem mem_axialDisk {R : ℤ} {c : Axial} :
    c ∈ axialDisk R ↔ (cubeDistance c : ℤ) ≤ R := by
  unfold axialDisk
  simp only [List.mem_flatMap, List.mem_map, mem_intRange]
  constructor
  · rintro ⟨x, ⟨hx1, hx2⟩, y, ⟨hy1, hy2⟩, rfl⟩
    simp only [cubeDistance]
    omega
  · intro h
    refine ⟨c.X, ?_, -c.X - c.Z, ?_, ?_⟩
    · simp only [cubeDistance] at h
      omega
    · simp only [cubeDistance] at h
      omega
    · rw [show -c.X - (-c.X - c.Z) = c.Z from by ring]

theorem axialDisk_nodup (R : ℤ) : (axialDisk R).Nodup := by
  unfold axialDisk
  rw [List.nodup_flatMap]
  constructor
  · intro x _
    refine List.Nodup.map ?_ (intRange_nodup _ _)
    intro i j h
    have h2 : -x - i = -x - j := congrArg Axial.Z h
    omega
  · refine List.Pairwise.imp ?_ (intRange_nodup (-R) R)
    intro x y hxy
    intro a ha hb
    simp only [List.mem_map] at ha hb
    obtain ⟨i, _, rfl⟩ := ha
    obtain ⟨j, _, hj⟩ := hb
    exact hxy (congrArg Axial.X hj).symm

/- ### The hex tile-count identity -/

theorem sum_map_add_const (l : List ℤ) (f : ℤ → ℤ) (k : ℤ) :
    (l.map fun x => f x + k).sum = (l.map f).sum + k * l.length := by
  induction l with
  | nil => simp
  | cons a t ih =>
    simp only [List.map_cons, List.sum_cons, List.length_cons, ih]
    push_cast
    ring

theorem diskRowSum (n : ℕ) :
    ((intRange (-(n : ℤ)) n).map fun x => 2 * (n : ℤ) + 1 - |x|).sum =
      3 * (n : ℤ) ^ 2 + 3 * n + 1 := by
  induction n with
  | zero => simp [intRange, List.range_succ]
  | succ m ih =>
    push_cast
    rw [intRange_neg_succ m]
    simp only [List.map_cons, List.sum_cons, List.map_append, List.sum_append,
      List.map_nil, List.sum_nil]
    have hrw : ((intRange (-(m : ℤ)) m).map fun x => 2 * ((m : ℤ) + 1) + 1 - |x|) =
        (intRange (-(m : ℤ)) m).map fun x => (2 * (m : ℤ) + 1 - |x|) + 2 := by
      apply List.map_congr_left
      intro x _
      ring
    rw [hrw, sum_map_add_const (intRange (-(m : ℤ)) m) (fun x => 2 * (m : ℤ) + 1 - |x|) 2,
      ih, intRange_length]
    have habs1 : |(-((m : ℤ) + 1))| = (m : ℤ) + 1 := by
      rw [abs_neg]
      exact abs_of_nonneg (by positivity)
    have habs2 : |((m : ℤ) + 1)| = (m : ℤ) + 1 := abs_of_nonneg (by positivity)
    have hlen : ((((m : ℤ) - -(m : ℤ) + 1).toNat : ℕ) : ℤ) = 2 * (m : ℤ) + 1 := by omega
    have hlen2 : (((m : ℤ) + 1 - -(m : ℤ)).toNat : ℤ) = 2 * (m : ℤ) + 1 := by omega
    rw [habs1, habs2, hlen2]
    ring

theorem axialDisk_length (R : ℤ) (hR : 0 ≤ R) :
    ((axialDisk R).length : ℤ) = 3 * R ^ 2 + 3 * R + 1 := by
  obtain ⟨n, rfl⟩ : ∃ n : ℕ, R = (n : ℤ) := ⟨R.toNat, by omega⟩
  unfold axialDisk
  rw [List.length_flatMap]
  have hmap : ∀ l : List ℤ, (l.map (List.length ∘ fun x =>
      ((intRange (max (-(n : ℤ)) (-x - n)) (min (n : ℤ) (-x + n))).map
        fun y => (⟨x, -x - y⟩ : Axial)))) =
      l.map fun x =>
        (min (n : ℤ) (-x + n) + 1 - max (-(n : ℤ)) (-x - n)).toNat := by
    intro l
    apply List.map_congr_left
    intro x _
    simp only [Function.comp]
    rw [List.length_map, intRange_length]
  rw [hmap]
  have hcast : ((((intRange (-(n : ℤ)) n).map fun x =>
      (min (n : ℤ) (-x + n) + 1 - max (-(n : ℤ)) (-x - n)).toNat).sum : ℕ) : ℤ) =
      ((intRange (-(n : ℤ)) n).map fun x => 2 * (n : ℤ) + 1 - |x|).sum := by
    rw [Nat.cast_list_sum, List.map_map]
    apply congrArg
    apply List.map_congr_left
    intro x hx
    rw [mem_intRange] at hx
    simp only [Function.comp]
    rw [Int.abs_eq_natAbs]
    omega
  rw [hcast, diskRowSum]

/- ### Data model (`WorldBuilder.ts`) -/

/-- `TileType` enumeration. -/
inductive TileType where
  | Land
  | Water
  | Town
deriving DecidableEq, Repr

/-- `Biome` enumeration (`BiomeManager`). -/
inductive Biome where
  | Water
  | Grassland
  | Coastline
  | MountainSnow
  | Mountain
deriving DecidableEq, Repr

/-- `TileDefinition`. The source field `Type` is a reserved word in Lean and
is embedded as `Typ`. -/
structure TileDefinition where
  Position : Axial
  Typ : TileType
  Biome : Biome
deriving DecidableEq, Repr

/-- `MapConfig`. `GenerateBiomes`, `WaterLevel` and `Seed` are optional in
the source; the `Debug` flags are presentation-only and out of the core. -/
structure MapConfig where
  Radius : ℤ
  DepthScale : ℚ
  TotalTowns : ℤ
  GenerateBiomes : Option Bool := none
  WaterLevel : Option ℚ := none
  Seed : Option ℚ := none
deriving DecidableEq, Repr

/-- The default water level `-0.4` (written as the integer quotient
`-2/5` so that it evaluates definitionally). -/
def defaultWaterLevel : ℚ := Rat.divInt (-2) 5

/-- The in-place default resolution `BuildMapDefinition` performs on the
caller's `config` before any tile work: `config.Seed = math.random()` when
absent (`randSeed` stands for the `math.random()` draw) and
`config.WaterLevel = -0.4` when absent.  The source mutates the record; the
embedding returns the record as it stands after those writes, and this
updated record is also the `Config` of the returned `MapDefinition`
(the source returns the very same object). -/
def resolveConfig (randSeed : ℚ) (c : MapConfig) : MapConfig :=
  { c with
    Seed := some (c.Seed.getD randSeed)
    WaterLevel := some (c.WaterLevel.getD defaultWaterLevel) }

/-- `MapDefinition`: the resolved config plus the tile grid.  The source
keys tiles by `X` then `Z`; the embedding flattens the two-level map into a
position-keyed list (`axialKey` is injective, so the keying is equivalent). -/
structure MapDefinition where
  Config : MapConfig
  Tiles : List TileDefinition
deriving DecidableEq, Repr

/-- Position-keyed lookup in the tile grid (the `tiles.get(X)?.get(Z)`
double lookup of the source). -/
def tileAt (tiles : List TileDefinition) (c : Axial) : Option TileDefinition :=
  tiles.find? fun t => t.Position = c

/- ### Biome classifier (`BiomeManager.getTileBiome`) -/

/-- `BiomeManager.tileHasWater`: the tile's own decaying-noise height is at
most the configured water level.  `h` stands for `calculateDecayingNoise`
bound to the resolved seed and radius (a pure collaborator per the spec). -/
def tileHasWater (h : Axial → ℚ) (WL : ℚ) (axial : Axial) : Bool :=
  h axial ≤ WL

/-- `BiomeManager.tileIsCoastline`: some ring-1 neighbor has water. -/
def tileIsCoastline (h : Axial → ℚ) (WL : ℚ) (axial : Axial) : Bool :=
  (getNearbyCoordinates axial 1).any fun neighbor => tileHasWater h WL neighbor

/-- `BiomeManager.getTileBiome` (the active height-based rule; the
region-growing special-biome branch is commented out in the source). -/
def getTileBiome (h : Axial → ℚ) (WL : ℚ) (axial : Axial) : Biome :=
  if tileHasWater h WL axial then Biome.Water
  else if tileIsCoastline h WL axial then Biome.Coastline
  else if 1/5 < h axial then Biome.MountainSnow
  else if 0 < h axial then Biome.Mountain
  else Biome.Grassland

/- ### Terrain grid builder (the double loop of `BuildMapDefinition`) -/

/-- One tile of the initial grid: `Water` iff `height <= WaterLevel`,
biome from the classifier when `GenerateBiomes` is truthy, else
`Grassland`. -/
def buildTile (h : Axial → ℚ) (WL : ℚ) (gb : Bool) (axial : Axial) : TileDefinition :=
  { Position := axial
    Typ := if h axial ≤ WL then TileType.Water else TileType.Land
    Biome := if gb then getTileBiome h WL axial else Biome.Grassland }

/-- The initial grid produced by the terrain-generation double loop. -/
def buildTiles (h : Axial → ℚ) (WL : ℚ) (gb : Bool) (R : ℤ) : List TileDefinition :=
  (axialDisk R).map (buildTile h WL gb)

/- ### Island connectivity filter (flood fill + demotion) -/

/-- The `visited` map of the flood fill (`Map<string, boolean>` keyed by
`axialKey`, which is injective, so the key is the coordinate itself).
`Map.set` on a fresh key is modelled by consing; lookup takes the newest
binding, exactly as the JS map. -/
abbrev Visited := List (Axial × Bool)

/-- `visited.get(key)`. -/
def vlookup (v : Visited) (c : Axial) : Option Bool :=
  (v.find? fun p => p.1 = c).map fun p => p.2

/-- Flood-fill traversal state: `visited`, the grow-only queue `toVisit`
and the read cursor `visitIdx`. -/
structure FloodState where
  visited : Visited
  toVisit : List Axial
  visitIdx : ℕ
deriving DecidableEq, Repr

/-- Processing of one neighbor inside the flood-fill loop body: skip if
already classified, else sample the height; at most `WaterLevel` marks it
unreachable, otherwise it is marked reachable and enqueued. -/
def visitNeighbor (h : Axial → ℚ) (WL : ℚ) (acc : Visited × List Axial)
    (n : Axial) : Visited × List Axial :=
  if (vlookup acc.1 n).isSome then acc
  else if h n ≤ WL then ((n, false) :: acc.1, acc.2)
  else ((n, true) :: acc.1, acc.2 ++ [n])

/-- One iteration of the flood-fill loop on the dequeued tile `t`:
fold the neighbor processing over `getNearbyCoordinates(t, 1)` and advance
the cursor. -/
def stepTile (h : Axial → ℚ) (WL : ℚ) (s : FloodState) (t : Axial) : FloodState :=
  let acc := (getNearbyCoordinates t 1).foldl (visitNeighbor h WL) (s.visited, s.toVisit)
  ⟨acc.1, acc.2, s.visitIdx + 1⟩

/-- The flood-fill loop.  The source `for (;;)` has no fuel; the embedding
spends one unit of fuel per iteration and returns `none` when the loop has
not exhausted its queue within `fuel` iterations (modelling a run that has
not terminated yet — `some` results are fuel-independent once reached). -/
def floodLoop (h : Axial → ℚ) (WL : ℚ) : ℕ → FloodState → Option FloodState
  | 0, s =>
    match s.toVisit[s.visitIdx]? with
    | none => some s
    | some _ => none
  | fuel + 1, s =>
    match s.toVisit[s.visitIdx]? with
    | none => some s
    | some t => floodLoop h WL fuel (stepTile h WL s t)

/-- The initial flood state: origin seeded visited/reachable and queued,
with no height test. -/
def initFlood : FloodState := ⟨[(origin, true)], [origin], 0⟩

/-- Reachability as the spec describes it: the origin, and transitively any
ring-1 neighbor of a reachable cell whose height exceeds the water level.
(The cells of such a path need not lie inside the map radius; the source
traversal never checks the radius.) -/
inductive Reach (h : Axial → ℚ) (WL : ℚ) : Axial → Prop where
  | origin : Reach h WL origin
  | step {c n : Axial} : Reach h WL c → n ∈ getNearbyCoordinates c 1 →
      WL < h n → Reach h WL n

/-- The demotion pass: every `Land` tile whose coordinate was not marked
reachable (`visited.get` is `false` or absent) is overwritten to
`Water`/`Water`; all other tiles are untouched. -/
def demoteTile (v : Visited) (t : TileDefinition) : TileDefinition :=
  if t.Typ = TileType.Land then
    match vlookup v t.Position with
    | some true => t
    | _ => { t with Typ := TileType.Water, Biome := Biome.Water }
  else t

/-- The full demotion pass over the grid. -/
def demote (v : Visited) (tiles : List TileDefinition) : List TileDefinition :=
  tiles.map (demoteTile v)

/- ### Settlement placer (town placement loop of `BuildMapDefinition`) -/

/-- Number of `Town` tiles in the grid. -/
def countTowns (tiles : List TileDefinition) : ℕ :=
  (tiles.filter fun t => t.Typ = TileType.Town).length

/-- Number of `Land` tiles in the grid. -/
def countLand (tiles : List TileDefinition) : ℕ :=
  (tiles.filter fun t => t.Typ = TileType.Land).length

/-- The candidate check of the placer: every coordinate within the current
exclusion radius that holds a tile must not hold a `Town` (out-of-grid
coordinates are skipped, as by the source's `continue`). -/
def canBeTown (tiles : List TileDefinition) (pos : Axial) (r : ℤ) : Bool :=
  (getNearbyCoordinates pos r).all fun coord =>
    match tileAt tiles coord with
    | some neighborTile => neighborTile.Typ ≠ TileType.Town
    | none => true

/-- Promotion of one tile: `tile.Type = TileType.Town` when it sits at
`pos`. -/
def promoteTile (pos : Axial) (t : TileDefinition) : TileDefinition :=
  if t.Position = pos then { t with Typ := TileType.Town } else t

/-- Promotion of the tile at `pos` (the source mutates the sampled tile
object, which is the grid entry at its position). -/
def promoteAt (tiles : List TileDefinition) (pos : Axial) : List TileDefinition :=
  tiles.map (promoteTile pos)

/-- One candidate of a placement round: promote if the exclusion check
passes, counting the promotion. -/
def placeStep (r : ℤ) (acc : List TileDefinition × ℕ) (pos : Axial) :
    List TileDefinition × ℕ :=
  if canBeTown acc.1 pos r then (promoteAt acc.1 pos, acc.2 + 1) else acc

/-- One placement round over the sampled candidates: each accepted
candidate is promoted immediately, so later candidates of the same round
see it as a `Town`.  Returns the updated grid and the number placed this
round. -/
def placeRound (tiles : List TileDefinition) (r : ℤ) (cands : List Axial) :
    List TileDefinition × ℕ :=
  cands.foldl (placeStep r) (tiles, 0)

/-- Placer loop state: the grid, `townsGenerated`,
`townExclusionZoneRadius` and `townExclusionZoneRetries`. -/
structure TownState where
  tiles : List TileDefinition
  townsGenerated : ℕ
  radius : ℤ
  retries : ℕ
deriving DecidableEq, Repr

/-- The random-tile sampler `getRandomMapTiles(tiles, count, TileType.Land,
rand)` — a `HexUtil` collaborator, modelled as an oracle returning the
positions of the sampled tiles. -/
abbrev Sampler := List TileDefinition → ℤ → List Axial

/-- Modelled from the spec: the sampler contract — returned tiles are
distinct and `Land`-typed tiles of the current grid. -/
def SamplerOK (sampler : Sampler) : Prop :=
  ∀ tiles n, (sampler tiles n).Nodup ∧
    ∀ p ∈ sampler tiles n, ∃ t, tileAt tiles p = some t ∧ t.Typ = TileType.Land

/-- One round of the placement loop body: sample `TotalTowns -
townsGenerated` candidates, try to place each, then do the retry/radius
bookkeeping.  As in the source, `retries` is not reset by a successful
round; it resets only when it reaches 3 and the radius shrinks. -/
def townRound (sampler : Sampler) (total : ℤ) (s : TownState) : TownState :=
  let res := placeRound s.tiles s.radius (sampler s.tiles (total - s.townsGenerated))
  let retries1 := if 0 < res.2 then s.retries else s.retries + 1
  let radius1 := if retries1 = 3 then s.radius - 1 else s.radius
  let retries2 := if retries1 = 3 then 0 else retries1
  ⟨res.1, s.townsGenerated + res.2, radius1, retries2⟩

/-- The town-placement loop.  One unit of fuel per round; the `Bool` of the
result records whether the under-placement warning (`warn(...)` on
exclusion-radius exhaustion) fired.  As in the source, the radius check
happens after the retry bookkeeping of the same round, and a full-quota
exit never warns. -/
def townLoop (sampler : Sampler) (total : ℤ) : ℕ → TownState → Option (TownState × Bool)
  | 0, s => if (s.townsGenerated : ℤ) < total then none else some (s, false)
  | fuel + 1, s =>
    if (s.townsGenerated : ℤ) < total then
      let s1 := townRound sampler total s
      if s1.radius = -1 then some (s1, true)
      else townLoop sampler total fuel s1
    else some (s, false)

/- ### The full pipeline (`BuildMapDefinition`) -/

/-- The height function the pipeline samples: `calculateDecayingNoise`
bound to the resolved seed and the configured radius. -/
def buildNoise (noise : ℚ → ℤ → Axial → ℚ) (randSeed : ℚ)
    (config : MapConfig) : Axial → ℚ :=
  noise ((resolveConfig randSeed config).Seed.getD 0)
    (resolveConfig randSeed config).Radius

/-- The resolved water level used by the pipeline. -/
def buildWL (randSeed : ℚ) (config : MapConfig) : ℚ :=
  (resolveConfig randSeed config).WaterLevel.getD 0

/-- The initial grid the terrain-generation double loop produces. -/
def buildInitialTiles (noise : ℚ → ℤ → Axial → ℚ) (randSeed : ℚ)
    (config : MapConfig) : List TileDefinition :=
  buildTiles (buildNoise noise randSeed config) (buildWL randSeed config)
    ((resolveConfig randSeed config).GenerateBiomes = some true)
    (resolveConfig randSeed config).Radius

/-- `BuildMapDefinition`.  `noise` is `calculateDecayingNoise` as a
function of seed, radius and coordinate (pure and deterministic per the
collaborator contract); `randSeed` is the `math.random()` draw used when
`config.Seed` is absent; the two fuels drive the flood-fill and placement
loops, with `none` modelling a run that does not finish. -/
def BuildMapDefinition (noise : ℚ → ℤ → Axial → ℚ) (sampler : Sampler)
    (randSeed : ℚ) (fuelFlood fuelTown : ℕ) (config : MapConfig) :
    Option MapDefinition :=
  match floodLoop (buildNoise noise randSeed config) (buildWL randSeed config)
      fuelFlood initFlood with
  | none => none
  | some fs =>
    match townLoop sampler (resolveConfig randSeed config).TotalTowns fuelTown
        ⟨demote fs.visited (buildInitialTiles noise randSeed config), 0,
          min (resolveConfig randSeed config).Radius 10, 0⟩ with
    | none => none
    | some (ts, _) => some { Config := resolveConfig randSeed config, Tiles := ts.tiles }

/- ### Utility lemmas -/

theorem vlookup_cons (a : Axial) (b : Bool) (v : Visited) (c : Axial) :
    vlookup ((a, b) :: v) c = if a = c then some b else vlookup v c := by
  by_cases hac : a = c <;> simp [vlookup, List.find?_cons, hac]

theorem mem_getNearbyCoordinates {c : Axial} {r : ℤ} {n : Axial} :
    n ∈ getNearbyCoordinates c r ↔ n ≠ c ∧ (axialDist n c : ℤ) ≤ r := by
  unfold getNearbyCoordinates
  simp only [List.mem_map, List.mem_filter, mem_axialDisk, decide_eq_true_eq]
  constructor
  · rintro ⟨d, ⟨hd, hdo⟩, rfl⟩
    refine ⟨?_, ?_⟩
    · intro hcontra
      apply hdo
      have hX : c.X + d.X = c.X := congrArg Axial.X hcontra
      have hZ : c.Z + d.Z = c.Z := congrArg Axial.Z hcontra
      have hX0 : d.X = 0 := by omega
      have hZ0 : d.Z = 0 := by omega
      cases d
      simp_all [origin]
    · have hX : (⟨c.X + d.X, c.Z + d.Z⟩ : Axial).X - c.X = d.X := by simp
      simp only [axialDist, cubeDistance] at *
      omega
  · rintro ⟨hne, hd⟩
    refine ⟨⟨n.X - c.X, n.Z - c.Z⟩, ⟨?_, ?_⟩, ?_⟩
    · simp only [axialDist, cubeDistance] at hd ⊢
      omega
    · intro hcontra
      apply hne
      have hX : n.X - c.X = 0 := congrArg Axial.X hcontra
      have hZ : n.Z - c.Z = 0 := congrArg Axial.Z hcontra
      have hX0 : n.X = c.X := by omega
      have hZ0 : n.Z = c.Z := by omega
      cases n
      cases c
      simp_all
    · cases n
      cases c
      simp only [Axial.mk.injEq]
      omega

theorem axialDist_comm (a b : Axial) : axialDist a b = axialDist b a := by
  simp only [axialDist, cubeDistance]
  omega

theorem tileAt_some_pos {tiles : List TileDefinition} {c : Axial} {t : TileDefinition}
    (h : tileAt tiles c = some t) : t.Position = c := by
  have h2 := List.find?_some h
  simpa using h2

theorem tileAt_mem {tiles : List TileDefinition} {c : Axial} {t : TileDefinition}
    (h : tileAt tiles c = some t) : t ∈ tiles :=
  List.mem_of_find?_eq_some h

theorem tileAt_map (g : TileDefinition → TileDefinition)
    (hg : ∀ t, (g t).Position = t.Position) (tiles : List TileDefinition) (c : Axial) :
    tileAt (tiles.map g) c = (tileAt tiles c).map g := by
  induction tiles with
  | nil => rfl
  | cons t rest ih =>
    unfold tileAt at ih ⊢
    rw [List.map_cons, List.find?_cons, List.find?_cons, hg t]
    by_cases hc : t.Position = c
    · simp [hc]
    · simp [hc, ih]

/- ### Flood-fill loop invariants -/

/-- Invariant on the visited map and queue of the flood fill. -/
structure PairInv (h : Axial → ℚ) (WL : ℚ) (v : Visited) (q : List Axial) : Prop where
  originTrue : vlookup v origin = some true
  qNodup : q.Nodup
  qTrue : ∀ c ∈ q, vlookup v c = some true
  trueQ : ∀ c, vlookup v c = some true → c ∈ q
  falseLow : ∀ c, vlookup v c = some false → h c ≤ WL ∧ c ≠ origin
  qHigh : ∀ c ∈ q, c = origin ∨ WL < h c
  qReach : ∀ c ∈ q, Reach h WL c

/-- Full loop invariant: the pair invariant plus the fact that every queue
entry before the cursor has had all its neighbors classified. -/
structure FloodInv (h : Axial → ℚ) (WL : ℚ) (s : FloodState) : Prop where
  pair : PairInv h WL s.visited s.toVisit
  processed : ∀ i t, i < s.visitIdx → s.toVisit[i]? = some t →
      ∀ n ∈ getNearbyCoordinates t 1, (vlookup s.visited n).isSome

theorem visitNeighbor_spec (h : Axial → ℚ) (WL : ℚ) (t n : Axial) (v : Visited)
    (q : List Axial) (inv : PairInv h WL v q)
    (hmem : n ∈ getNearbyCoordinates t 1) (hrt : Reach h WL t) :
    PairInv h WL (visitNeighbor h WL (v, q) n).1 (visitNeighbor h WL (v, q) n).2 ∧
    (∃ ext, (visitNeighbor h WL (v, q) n).2 = q ++ ext) ∧
    (∀ c b, vlookup v c = some b → vlookup (visitNeighbor h WL (v, q) n).1 c = some b) ∧
    (vlookup (visitNeighbor h WL (v, q) n).1 n).isSome := by
  unfold visitNeighbor
  by_cases hs : (vlookup v n).isSome
  · rw [if_pos hs]
    exact ⟨inv, ⟨[], by simp⟩, fun c b hb => hb, hs⟩
  · have hnone : vlookup v n = none := by
      cases hv : vlookup v n
      · rfl
      · rw [hv] at hs
        simp at hs
    have hno : n ≠ origin := by
      intro hcontra
      rw [hcontra, inv.originTrue] at hnone
      cases hnone
    rw [if_neg hs]
    by_cases hw : h n ≤ WL
    · rw [if_pos hw]
      dsimp only
      refine ⟨?_, ⟨[], by simp⟩, ?_, ?_⟩
      · constructor
        · rw [vlookup_cons]
          simp only [show ¬(n = origin) from hno, if_false]
          exact inv.originTrue
        · exact inv.qNodup
        · intro c hc
          rw [vlookup_cons]
          have : ¬(n = c) := by
            intro hcontra
            rw [hcontra] at hnone
            rw [inv.qTrue c hc] at hnone
            cases hnone
          simp only [this, if_false]
          exact inv.qTrue c hc
        · intro c hc
          rw [vlookup_cons] at hc
          by_cases hnc : n = c
          · simp only [hnc, if_true] at hc
            cases hc
          · simp only [hnc, if_false] at hc
            exact inv.trueQ c hc
        · intro c hc
          rw [vlookup_cons] at hc
          by_cases hnc : n = c
          · simp only [hnc, if_true, Option.some.injEq] at hc
            exact hnc ▸ ⟨hw, hno⟩
          · simp only [hnc, if_false] at hc
            exact inv.falseLow c hc
        · exact inv.qHigh
        · exact inv.qReach
      · intro c b hb
        rw [vlookup_cons]
        have : ¬(n = c) := by
          intro hcontra
          rw [hcontra, hb] at hnone
          cases hnone
        simp only [this, if_false]
        exact hb
      · rw [vlookup_cons]
        simp
    · rw [if_neg hw]
      dsimp only
      have hhigh : WL < h n := lt_of_not_le hw
      have hnq : n ∉ q := by
        intro hcontra
        rw [inv.qTrue n hcontra] at hnone
        cases hnone
      refine ⟨?_, ⟨[n], rfl⟩, ?_, ?_⟩
      · constructor
        · rw [vlookup_cons]
          simp only [show ¬(n = origin) from hno, if_false]
          exact inv.originTrue
        · exact List.Nodup.append inv.qNodup (List.nodup_singleton n)
            (by simpa using hnq)
        · intro c hc
          rw [List.mem_append] at hc
          rw [vlookup_cons]
          rcases hc with hc | hc
          · have : ¬(n = c) := by
              intro hcontra
              exact hnq (hcontra ▸ hc)
            simp only [this, if_false]
            exact inv.qTrue c hc
          · simp only [List.mem_singleton] at hc
            simp [hc]
        · intro c hc
          rw [vlookup_cons] at hc
          by_cases hnc : n = c
          · rw [List.mem_append]
            right
            simp [hnc]
          · simp only [hnc, if_false] at hc
            exact List.mem_append_left _ (inv.trueQ c hc)
        · intro c hc
          rw [vlookup_cons] at hc
          by_cases hnc : n = c
          · simp only [hnc, if_true, Option.some.injEq] at hc
            cases hc
          · simp only [hnc, if_false] at hc
            exact inv.falseLow c hc
        · intro c hc
          rw [List.mem_append] at hc
          rcases hc with hc | hc
          · exact inv.qHigh c hc
          · simp only [List.mem_singleton] at hc
            exact Or.inr (hc ▸ hhigh)
        · intro c hc
          rw [List.mem_append] at hc
          rcases hc with hc | hc
          · exact inv.qReach c hc
          · simp only [List.mem_singleton] at hc
            exact hc ▸ Reach.step hrt hmem hhigh
      · intro c b hb
        rw [vlookup_cons]
        have : ¬(n = c) := by
          intro hcontra
          rw [hcontra, hb] at hnone
          cases hnone
        simp only [this, if_false]
        exact hb
      · rw [vlookup_cons]
        simp

theorem visitFold_spec (h : Axial → ℚ) (WL : ℚ) (t : Axial) (hrt : Reach h WL t) :
    ∀ (ns : List Axial) (v : Visited) (q : List Axial),
      (∀ n ∈ ns, n ∈ getNearbyCoordinates t 1) → PairInv h WL v q →
      PairInv h WL (ns.foldl (visitNeighbor h WL) (v, q)).1
        (ns.foldl (visitNeighbor h WL) (v, q)).2 ∧
      (∃ ext, (ns.foldl (visitNeighbor h WL) (v, q)).2 = q ++ ext) ∧
      (∀ c b, vlookup v c = some b →
        vlookup (ns.foldl (visitNeighbor h WL) (v, q)).1 c = some b) ∧
      (∀ n ∈ ns, (vlookup (ns.foldl (visitNeighbor h WL) (v, q)).1 n).isSome) := by
  intro ns
  induction ns with
  | nil =>
    intro v q _ inv
    exact ⟨inv, ⟨[], by simp⟩, fun c b hb => hb, by simp⟩
  | cons n ns ih =>
    intro v q hns inv
    rw [List.foldl_cons]
    obtain ⟨inv1, ⟨e1, he1⟩, hext1, hsome1⟩ :=
      visitNeighbor_spec h WL t n v q inv (hns n (by simp)) hrt
    obtain ⟨inv2, ⟨e2, he2⟩, hext2, hsome2⟩ :=
      ih (visitNeighbor h WL (v, q) n).1 (visitNeighbor h WL (v, q) n).2
        (fun m hm => hns m (by simp [hm])) inv1
    refine ⟨?_, ⟨e1 ++ e2, ?_⟩, ?_, ?_⟩
    · exact inv2
    · rw [he2, he1, List.append_assoc]
    · intro c b hb
      exact hext2 c b (hext1 c b hb)
    · intro m hm
      rcases List.mem_cons.mp hm with hm | hm
      · obtain ⟨b, hb⟩ := Option.isSome_iff_exists.mp hsome1
        rw [hm]
        rw [hext2 n b hb]
        rfl
      · exact hsome2 m hm

theorem stepTile_inv (h : Axial → ℚ) (WL : ℚ) (s : FloodState) (t : Axial)
    (hget : s.toVisit[s.visitIdx]? = some t) (inv : FloodInv h WL s) :
    FloodInv h WL (stepTile h WL s t) ∧
    (∀ c b, vlookup s.visited c = some b →
      vlookup (stepTile h WL s t).visited c = some b) ∧
    (∃ ext, (stepTile h WL s t).toVisit = s.toVisit ++ ext) := by
  have htmem : t ∈ s.toVisit := List.getElem?_mem hget
  have hrt : Reach h WL t := inv.pair.qReach t htmem
  obtain ⟨inv2, ⟨ext, hext⟩, hlook, hsome⟩ :=
    visitFold_spec h WL t hrt (getNearbyCoordinates t 1) s.visited s.toVisit
      (fun n hn => hn) inv.pair
  have hidx : s.visitIdx < s.toVisit.length := by
    rcases List.getElem?_eq_some_iff.mp hget with ⟨hlt, _⟩
    exact hlt
  refine ⟨⟨?_, ?_⟩, ?_, ⟨ext, ?_⟩⟩
  · exact inv2
  · intro i u hi hgu n hn
    unfold stepTile at hgu ⊢
    dsimp only at hgu ⊢
    rw [hext] at hgu
    rcases Nat.lt_succ_iff_lt_or_eq.mp hi with hi2 | hi2
    · have hiu : s.toVisit[i]? = some u := by
        have hilen : i < s.toVisit.length := lt_trans hi2 hidx
        rw [List.getElem?_append_left hilen] at hgu
        exact hgu
      have hprev := inv.processed i u hi2 hiu n hn
      obtain ⟨b, hb⟩ := Option.isSome_iff_exists.mp hprev
      rw [hlook n b hb]
      rfl
    · subst hi2
      rw [List.getElem?_append_left hidx, hget] at hgu
      cases hgu
      exact hsome n hn
  · intro c b hb
    unfold stepTile
    dsimp only
    exact hlook c b hb
  · unfold stepTile
    dsimp only
    exact hext

theorem floodLoop_halt (h : Axial → ℚ) (WL : ℚ) (fuel : ℕ) (s : FloodState)
    (hg : s.toVisit[s.visitIdx]? = none) : floodLoop h WL fuel s = some s := by
  cases fuel with
  | zero =>
    unfold floodLoop
    rw [hg]
  | succ n =>
    unfold floodLoop
    rw [hg]

theorem floodLoop_stuck (h : Axial → ℚ) (WL : ℚ) (s : FloodState) (t : Axial)
    (hg : s.toVisit[s.visitIdx]? = some t) : floodLoop h WL 0 s = none := by
  unfold floodLoop
  rw [hg]

theorem floodLoop_cont (h : Axial → ℚ) (WL : ℚ) (fuel : ℕ) (s : FloodState) (t : Axial)
    (hg : s.toVisit[s.visitIdx]? = some t) :
    floodLoop h WL (fuel + 1) s = floodLoop h WL fuel (stepTile h WL s t) := by
  conv_lhs => unfold floodLoop
  rw [hg]

theorem floodLoop_run (h : Axial → ℚ) (WL : ℚ) :
    ∀ (fuel : ℕ) (s s2 : FloodState),
      floodLoop h WL fuel s = some s2 → FloodInv h WL s →
      FloodInv h WL s2 ∧
      (∀ c b, vlookup s.visited c = some b → vlookup s2.visited c = some b) ∧
      (∃ ext, s2.toVisit = s.toVisit ++ ext) ∧
      s2.toVisit[s2.visitIdx]? = none := by
  intro fuel
  induction fuel with
  | zero =>
    intro s s2 hrun inv
    cases hg : s.toVisit[s.visitIdx]? with
    | none =>
      rw [floodLoop_halt h WL 0 s hg] at hrun
      cases hrun
      exact ⟨inv, fun c b hb => hb, ⟨[], by simp⟩, hg⟩
    | some t =>
      rw [floodLoop_stuck h WL s t hg] at hrun
      cases hrun
  | succ fuel ih =>
    intro s s2 hrun inv
    cases hg : s.toVisit[s.visitIdx]? with
    | none =>
      rw [floodLoop_halt h WL _ s hg] at hrun
      cases hrun
      exact ⟨inv, fun c b hb => hb, ⟨[], by simp⟩, hg⟩
    | some t =>
      rw [floodLoop_cont h WL fuel s t hg] at hrun
      obtain ⟨inv1, hlook1, ⟨e1, he1⟩⟩ := stepTile_inv h WL s t hg inv
      obtain ⟨inv2, hlook2, ⟨e2, he2⟩, hhalt⟩ := ih (stepTile h WL s t) s2 hrun inv1
      refine ⟨inv2, ?_, ⟨e1 ++ e2, ?_⟩, hhalt⟩
      · intro c b hb
        exact hlook2 c b (hlook1 c b hb)
      · rw [he2, he1, List.append_assoc]

theorem initFlood_inv (h : Axial → ℚ) (WL : ℚ) : FloodInv h WL initFlood := by
  refine ⟨⟨?_, ?_, ?_, ?_, ?_, ?_, ?_⟩, ?_⟩
  · rfl
  · exact List.nodup_singleton origin
  · intro c hc
    simp only [initFlood, List.mem_singleton] at hc
    subst hc
    rfl
  · intro c hc
    simp only [initFlood] at hc
    rw [vlookup_cons] at hc
    by_cases ho : origin = c
    · simp [initFlood, ho.symm]
    · simp only [ho, if_false, vlookup] at hc
      cases hc
  · intro c hc
    simp only [initFlood] at hc
    rw [vlookup_cons] at hc
    by_cases ho : origin = c
    · simp only [ho, if_true] at hc
      cases hc
    · simp only [ho, if_false, vlookup] at hc
      cases hc
  · intro c hc
    simp only [initFlood, List.mem_singleton] at hc
    exact Or.inl hc
  · intro c hc
    simp only [initFlood, List.mem_singleton] at hc
    exact hc ▸ Reach.origin
  · intro i t hi
    simp only [initFlood] at hi ⊢
    omega

theorem flood_visited_true_iff (h : Axial → ℚ) (WL : ℚ) {fuel : ℕ} {s2 : FloodState}
    (hrun : floodLoop h WL fuel initFlood = some s2) (c : Axial) :
    vlookup s2.visited c = some true ↔ Reach h WL c := by
  obtain ⟨inv, _, _, hhalt⟩ :=
    floodLoop_run h WL fuel initFlood s2 hrun (initFlood_inv h WL)
  constructor
  · intro htrue
    exact inv.pair.qReach c (inv.pair.trueQ c htrue)
  · intro hr
    have hlen : s2.toVisit.length ≤ s2.visitIdx := List.getElem?_eq_none_iff.mp hhalt
    induction hr with
    | origin => exact inv.pair.originTrue
    | @step d n hrd hmem hhigh ih =>
      have hd : d ∈ s2.toVisit := inv.pair.trueQ d ih
      obtain ⟨i, hilen, hig⟩ := List.mem_iff_getElem.mp hd
      have higet : s2.toVisit[i]? = some d := List.getElem?_eq_some_iff.mpr ⟨hilen, hig⟩
      have hsome := inv.processed i d (lt_of_lt_of_le hilen hlen) higet n hmem
      obtain ⟨b, hb⟩ := Option.isSome_iff_exists.mp hsome
      cases b with
      | true => exact hb
      | false =>
        obtain ⟨hlow, _⟩ := inv.pair.falseLow n hb
        exact absurd hhigh (not_lt_of_le hlow)

/- ### Flood fill: divergence without decay, termination with decay -/

theorem exists_farther_neighbor (c : Axial) :
    ∃ n ∈ getNearbyCoordinates c 1, cubeDistance n = cubeDistance c + 1 := by
  rcases le_or_lt 0 c.X with hx | hx <;> rcases le_or_lt 0 c.Z with hz | hz
  · refine ⟨⟨c.X + 1, c.Z⟩, mem_getNearbyCoordinates.mpr ⟨?_, ?_⟩, ?_⟩
    · intro hcontra
      have h2 := congrArg Axial.X hcontra
      simp at h2
    · simp only [axialDist, cubeDistance]
      omega
    · simp only [cubeDistance]
      omega
  · refine ⟨⟨c.X + 1, c.Z - 1⟩, mem_getNearbyCoordinates.mpr ⟨?_, ?_⟩, ?_⟩
    · intro hcontra
      have h2 := congrArg Axial.X hcontra
      simp at h2
    · simp only [axialDist, cubeDistance]
      omega
    · simp only [cubeDistance]
      omega
  · refine ⟨⟨c.X - 1, c.Z + 1⟩, mem_getNearbyCoordinates.mpr ⟨?_, ?_⟩, ?_⟩
    · intro hcontra
      have h2 := congrArg Axial.X hcontra
      simp at h2
    · simp only [axialDist, cubeDistance]
      omega
    · simp only [cubeDistance]
      omega
  · refine ⟨⟨c.X - 1, c.Z⟩, mem_getNearbyCoordinates.mpr ⟨?_, ?_⟩, ?_⟩
    · intro hcontra
      have h2 := congrArg Axial.X hcontra
      simp at h2
    · simp only [axialDist, cubeDistance]
      omega
    · simp only [cubeDistance]
      omega

theorem exists_max_cubeDistance (l : List Axial) (hne : l ≠ []) :
    ∃ c ∈ l, ∀ d ∈ l, cubeDistance d ≤ cubeDistance c := by
  induction l with
  | nil => cases hne rfl
  | cons a t ih =>
    cases t with
    | nil =>
      refine ⟨a, by simp, ?_⟩
      intro d hd
      simp only [List.mem_singleton] at hd
      exact hd ▸ le_refl _
    | cons b u =>
      obtain ⟨c, hc, hmax⟩ := ih (by simp)
      rcases le_or_lt (cubeDistance c) (cubeDistance a) with hca | hca
      · refine ⟨a, by simp, ?_⟩
        intro d hd
        rcases List.mem_cons.mp hd with rfl | hd
        · exact le_refl _
        · exact le_trans (hmax d hd) hca
      · refine ⟨c, List.mem_cons_of_mem a hc, ?_⟩
        intro d hd
        rcases List.mem_cons.mp hd with rfl | hd
        · exact le_of_lt hca
        · exact hmax d hd

theorem flood_halt_closure (h : Axial → ℚ) (WL : ℚ) {fuel : ℕ} {s2 : FloodState}
    (hrun : floodLoop h WL fuel initFlood = some s2)
    (hnofalse : ∀ c : Axial, ¬(h c ≤ WL)) :
    origin ∈ s2.toVisit ∧
      ∀ c ∈ s2.toVisit, ∀ n ∈ getNearbyCoordinates c 1, n ∈ s2.toVisit := by
  obtain ⟨inv, _, ⟨ext, hq⟩, hhalt⟩ :=
    floodLoop_run h WL fuel initFlood s2 hrun (initFlood_inv h WL)
  constructor
  · rw [hq]
    exact List.mem_append_left _ (by simp [initFlood])
  · intro c hc n hn
    have hlen : s2.toVisit.length ≤ s2.visitIdx := List.getElem?_eq_none_iff.mp hhalt
    obtain ⟨i, hilen, hig⟩ := List.mem_iff_getElem.mp hc
    have hsome := inv.processed i c (lt_of_lt_of_le hilen hlen)
      (List.getElem?_eq_some_iff.mpr ⟨hilen, hig⟩) n hn
    obtain ⟨b, hb⟩ := Option.isSome_iff_exists.mp hsome
    cases b with
    | false => exact absurd (inv.pair.falseLow n hb).1 (hnofalse n)
    | true => exact inv.pair.trueQ n hb

theorem floodLoop_qbound (h : Axial → ℚ) (WL : ℚ) {s : FloodState}
    (inv : FloodInv h WL s) (D : ℕ)
    (hd : ∀ c : Axial, (D : ℤ) ≤ (cubeDistance c : ℤ) → h c ≤ WL) :
    s.toVisit.length ≤ (axialDisk (D : ℤ)).length := by
  have hsub : s.toVisit ⊆ axialDisk (D : ℤ) := by
    intro c hc
    rw [mem_axialDisk]
    rcases inv.pair.qHigh c hc with rfl | hhigh
    · have h0 : cubeDistance origin = 0 := rfl
      rw [h0]
      exact_mod_cast Nat.zero_le D
    · by_contra hcon
      exact absurd (hd c (by omega)) (not_le_of_lt hhigh)
  exact List.Subperm.length_le (inv.pair.qNodup.subperm hsub)

theorem floodLoop_term_aux (h : Axial → ℚ) (WL : ℚ) (B : ℕ)
    (hbound : ∀ s, FloodInv h WL s → s.toVisit.length ≤ B) :
    ∀ (fuel : ℕ) (s : FloodState), FloodInv h WL s → B + 1 ≤ fuel + s.visitIdx →
      ∃ s2, floodLoop h WL fuel s = some s2 := by
  intro fuel
  induction fuel with
  | zero =>
    intro s inv hf
    have hlen := hbound s inv
    have hnone : s.toVisit[s.visitIdx]? = none := List.getElem?_eq_none (by omega)
    exact ⟨s, floodLoop_halt _ _ _ _ hnone⟩
  | succ fuel ih =>
    intro s inv hf
    cases hg : s.toVisit[s.visitIdx]? with
    | none => exact ⟨s, floodLoop_halt _ _ _ _ hg⟩
    | some t =>
      obtain ⟨inv1, _, _⟩ := stepTile_inv h WL s t hg inv
      obtain ⟨s2, hs2⟩ := ih (stepTile h WL s t) inv1 (by
        have hidx : (stepTile h WL s t).visitIdx = s.visitIdx + 1 := rfl
        omega)
      refine ⟨s2, ?_⟩
      rw [floodLoop_cont h WL fuel s t hg]
      exact hs2

theorem floodLoop_terminates (h : Axial → ℚ) (WL : ℚ) (D : ℕ)
    (hd : ∀ c : Axial, (D : ℤ) ≤ (cubeDistance c : ℤ) → h c ≤ WL) :
    ∃ s2, floodLoop h WL ((axialDisk (D : ℤ)).length + 1) initFlood = some s2 :=
  floodLoop_term_aux h WL ((axialDisk (D : ℤ)).length)
    (fun s inv => floodLoop_qbound h WL inv D hd)
    ((axialDisk (D : ℤ)).length + 1) initFlood (initFlood_inv h WL)
    (by simp [initFlood])

/- ### Flood fill: origin height is never sampled -/

theorem visitNeighbor_isSome_mono (h : Axial → ℚ) (WL : ℚ)
    (acc : Visited × List Axial) (n c : Axial)
    (hs : (vlookup acc.1 c).isSome) :
    (vlookup (visitNeighbor h WL acc n).1 c).isSome := by
  unfold visitNeighbor
  by_cases h1 : (vlookup acc.1 n).isSome
  · rw [if_pos h1]
    exact hs
  · rw [if_neg h1]
    by_cases h2 : h n ≤ WL
    · rw [if_pos h2]
      dsimp only
      rw [vlookup_cons]
      by_cases h3 : n = c
      · simp [h3]
      · simp only [h3, if_false]
        exact hs
    · rw [if_neg h2]
      dsimp only
      rw [vlookup_cons]
      by_cases h3 : n = c
      · simp [h3]
      · simp only [h3, if_false]
        exact hs

theorem visitFold_isSome_mono (h : Axial → ℚ) (WL : ℚ) :
    ∀ (ns : List Axial) (acc : Visited × List Axial) (c : Axial),
      (vlookup acc.1 c).isSome →
      (vlookup (ns.foldl (visitNeighbor h WL) acc).1 c).isSome := by
  intro ns
  induction ns with
  | nil => intro acc c hs; exact hs
  | cons n ns ih =>
    intro acc c hs
    rw [List.foldl_cons]
    exact ih _ c (visitNeighbor_isSome_mono h WL acc n c hs)

theorem visitNeighbor_congr (h1 h2 : Axial → ℚ) (WL : ℚ)
    (hagree : ∀ c, c ≠ origin → h1 c = h2 c) (acc : Visited × List Axial)
    (n : Axial) (ho : (vlookup acc.1 origin).isSome) :
    visitNeighbor h1 WL acc n = visitNeighbor h2 WL acc n := by
  unfold visitNeighbor
  by_cases hs : (vlookup acc.1 n).isSome
  · rw [if_pos hs, if_pos hs]
  · have hno : n ≠ origin := by
      intro hc
      exact hs (hc ▸ ho)
    rw [if_neg hs, if_neg hs, hagree n hno]

theorem visitFold_congr (h1 h2 : Axial → ℚ) (WL : ℚ)
    (hagree : ∀ c, c ≠ origin → h1 c = h2 c) :
    ∀ (ns : List Axial) (acc : Visited × List Axial),
      (vlookup acc.1 origin).isSome →
      ns.foldl (visitNeighbor h1 WL) acc = ns.foldl (visitNeighbor h2 WL) acc := by
  intro ns
  induction ns with
  | nil => intro acc _; rfl
  | cons n ns ih =>
    intro acc ho
    rw [List.foldl_cons, List.foldl_cons,
      visitNeighbor_congr h1 h2 WL hagree acc n ho]
    exact ih _ (visitNeighbor_isSome_mono h2 WL acc n origin ho)

theorem floodLoop_congr (h1 h2 : Axial → ℚ) (WL : ℚ)
    (hagree : ∀ c, c ≠ origin → h1 c = h2 c) :
    ∀ (fuel : ℕ) (s : FloodState), (vlookup s.visited origin).isSome →
      floodLoop h1 WL fuel s = floodLoop h2 WL fuel s := by
  intro fuel
  induction fuel with
  | zero =>
    intro s ho
    cases hg : s.toVisit[s.visitIdx]? with
    | none => rw [floodLoop_halt _ _ _ _ hg, floodLoop_halt _ _ _ _ hg]
    | some t => rw [floodLoop_stuck _ _ _ _ hg, floodLoop_stuck _ _ _ _ hg]
  | succ fuel ih =>
    intro s ho
    cases hg : s.toVisit[s.visitIdx]? with
    | none => rw [floodLoop_halt _ _ _ _ hg, floodLoop_halt _ _ _ _ hg]
    | some t =>
      rw [floodLoop_cont h1 WL fuel s t hg, floodLoop_cont h2 WL fuel s t hg]
      have hstep : stepTile h1 WL s t = stepTile h2 WL s t := by
        unfold stepTile
        rw [visitFold_congr h1 h2 WL hagree _ _ ho]
      rw [hstep]
      apply ih
      show (vlookup (stepTile h2 WL s t).visited origin).isSome
      unfold stepTile
      dsimp only
      exact visitFold_isSome_mono h2 WL _ _ origin ho

theorem mem_buildTiles {h : Axial → ℚ} {WL : ℚ} {gb : Bool} {R : ℤ}
    {t : TileDefinition} :
    t ∈ buildTiles h WL gb R ↔
      (cubeDistance t.Position : ℤ) ≤ R ∧ t = buildTile h WL gb t.Position := by
  unfold buildTiles
  simp only [List.mem_map, mem_axialDisk]
  constructor
  · rintro ⟨c, hc, rfl⟩
    simp [buildTile, hc]
  · rintro ⟨hd, ht⟩
    exact ⟨t.Position, hd, ht.symm⟩

/- ### Demotion-pass lemmas -/

theorem demoteTile_pos (v : Visited) (t : TileDefinition) :
    (demoteTile v t).Position = t.Position := by
  unfold demoteTile
  by_cases h : t.Typ = TileType.Land
  · rw [if_pos h]
    rcases hv : vlookup v t.Position with _ | b
    · rfl
    · cases b <;> rfl
  · rw [if_neg h]

theorem demoteTile_notLand (v : Visited) (t : TileDefinition)
    (ht : t.Typ ≠ TileType.Land) : demoteTile v t = t := by
  unfold demoteTile
  rw [if_neg ht]

theorem demoteTile_true (v : Visited) (t : TileDefinition)
    (ht : vlookup v t.Position = some true) : demoteTile v t = t := by
  unfold demoteTile
  by_cases h : t.Typ = TileType.Land
  · rw [if_pos h, ht]
  · rw [if_neg h]

theorem tileAt_demote (v : Visited) (tiles : List TileDefinition) (c : Axial) :
    tileAt (demote v tiles) c = (tileAt tiles c).map (demoteTile v) :=
  tileAt_map _ (demoteTile_pos v) tiles c

/- ### Placement lemmas -/

/-- There is a `Town` tile at coordinate `c`. -/
def isTown (tiles : List TileDefinition) (c : Axial) : Prop :=
  ∃ t, tileAt tiles c = some t ∧ t.Typ = TileType.Town

/-- The grid's tiles have pairwise distinct positions. -/
def posNodup (tiles : List TileDefinition) : Prop :=
  (tiles.map fun t => t.Position).Nodup

theorem promoteTile_pos (pos : Axial) (t : TileDefinition) :
    (promoteTile pos t).Position = t.Position := by
  unfold promoteTile
  by_cases h : t.Position = pos
  · rw [if_pos h]
  · rw [if_neg h]

theorem tileAt_promoteAt (tiles : List TileDefinition) (pos c : Axial) :
    tileAt (promoteAt tiles pos) c = (tileAt tiles c).map (promoteTile pos) :=
  tileAt_map _ (promoteTile_pos pos) tiles c

theorem tileAt_promoteAt_ne (tiles : List TileDefinition) (pos c : Axial)
    (hne : c ≠ pos) : tileAt (promoteAt tiles pos) c = tileAt tiles c := by
  rw [tileAt_promoteAt]
  cases ht : tileAt tiles c with
  | none => rfl
  | some t =>
    have hp := tileAt_some_pos ht
    simp [promoteTile, hp, hne]

theorem promoteAt_positions (tiles : List TileDefinition) (pos : Axial) :
    (promoteAt tiles pos).map (fun t => t.Position) = tiles.map fun t => t.Position := by
  unfold promoteAt
  rw [List.map_map]
  apply List.map_congr_left
  intro t _
  simp [Function.comp, promoteTile_pos]

theorem demote_positions (v : Visited) (tiles : List TileDefinition) :
    (demote v tiles).map (fun t => t.Position) = tiles.map fun t => t.Position := by
  unfold demote
  rw [List.map_map]
  apply List.map_congr_left
  intro t _
  simp [Function.comp, demoteTile_pos]

theorem tileAt_eq_of_mem {tiles : List TileDefinition} {t : TileDefinition}
    (hnd : posNodup tiles) (hmem : t ∈ tiles) : tileAt tiles t.Position = some t := by
  induction tiles with
  | nil => cases hmem
  | cons u rest ih =>
    unfold posNodup at hnd
    rw [List.map_cons, List.nodup_cons] at hnd
    rcases List.mem_cons.mp hmem with rfl | hmem
    · unfold tileAt
      rw [List.find?_cons]
      simp
    · have hne : u.Position ≠ t.Position := by
        intro hcontra
        exact hnd.1 (hcontra ▸ List.mem_map_of_mem _ hmem)
      unfold tileAt
      rw [List.find?_cons]
      have hdec : (decide (u.Position = t.Position)) = false := by simp [hne]
      rw [hdec]
      exact ih hnd.2 hmem

theorem promoteAt_not_mem (tiles : List TileDefinition) (pos : Axial)
    (hnm : ∀ t ∈ tiles, t.Position ≠ pos) : promoteAt tiles pos = tiles := by
  unfold promoteAt
  have hcongr : tiles.map (promoteTile pos) = tiles.map id := by
    apply List.map_congr_left
    intro t ht
    unfold promoteTile
    rw [if_neg (hnm t ht)]
    rfl
  rw [hcongr, List.map_id]

theorem countTowns_le_map (g : TileDefinition → TileDefinition)
    (hg : ∀ t, t.Typ = TileType.Town → (g t).Typ = TileType.Town)
    (l : List TileDefinition) : countTowns l ≤ countTowns (l.map g) := by
  unfold countTowns
  induction l with
  | nil => simp
  | cons t rest ih =>
    rw [List.map_cons, List.filter_cons, List.filter_cons]
    by_cases ht : t.Typ = TileType.Town
    · rw [if_pos (by simp [ht]), if_pos (by simp [hg t ht])]
      simpa using ih
    · rw [if_neg (by simp [ht])]
      by_cases hgt : (g t).Typ = TileType.Town
      · rw [if_pos (by simp [hgt])]
        exact le_trans ih (by simp)
      · rw [if_neg (by simp [hgt])]
        exact ih

theorem countTowns_promoteAt (tiles : List TileDefinition) (pos : Axial) :
    countTowns tiles ≤ countTowns (promoteAt tiles pos) := by
  apply countTowns_le_map
  intro t ht
  unfold promoteTile
  by_cases h : t.Position = pos
  · rw [if_pos h]
  · rw [if_neg h]
    exact ht

theorem countLand_promoteAt {tiles : List TileDefinition} {pos : Axial}
    {t0 : TileDefinition} (hnd : posNodup tiles)
    (ht : tileAt tiles pos = some t0) (hL : t0.Typ = TileType.Land) :
    countLand (promoteAt tiles pos) + 1 = countLand tiles := by
  induction tiles with
  | nil => cases ht
  | cons u rest ih =>
    unfold posNodup at hnd
    rw [List.map_cons, List.nodup_cons] at hnd
    unfold tileAt at ht
    rw [List.find?_cons] at ht
    by_cases hu : u.Position = pos
    · rw [show (decide (u.Position = pos)) = true from by simp [hu]] at ht
      have hut : u = t0 := by
        cases ht
        rfl
      subst hut
      have hrest : promoteAt rest pos = rest := by
        apply promoteAt_not_mem
        intro t htmem hcontra
        exact hnd.1 (by
          rw [← hu] at hcontra
          exact hcontra ▸ List.mem_map_of_mem _ htmem)
      unfold promoteAt countLand
      rw [List.map_cons]
      show ((promoteTile pos u :: promoteAt rest pos).filter _).length + 1 = _
      rw [hrest]
      unfold promoteTile
      rw [if_pos hu]
      rw [List.filter_cons, List.filter_cons]
      rw [if_neg (by simp), if_pos (by simp [hL])]
      simp
    · rw [show (decide (u.Position = pos)) = false from by simp [hu]] at ht
      have hstep := ih hnd.2 ht
      unfold promoteAt countLand at hstep ⊢
      rw [List.map_cons, List.filter_cons, List.filter_cons]
      have hpu : promoteTile pos u = u := by
        unfold promoteTile
        rw [if_neg hu]
      rw [hpu]
      by_cases hul : u.Typ = TileType.Land
      · rw [if_pos (by simp [hul]), if_pos (by simp [hul])]
        simpa using hstep
      · rw [if_neg (by simp [hul]), if_neg (by simp [hul])]
        exact hstep

theorem canBeTown_spec {tiles : List TileDefinition} {pos : Axial} {r : ℤ}
    (hcb : canBeTown tiles pos r = true) {q : Axial}
    (hq : isTown tiles q) (hne : q ≠ pos) : (r : ℤ) < axialDist q pos := by
  by_contra hcon
  push_neg at hcon
  have hmem : q ∈ getNearbyCoordinates pos r :=
    mem_getNearbyCoordinates.mpr ⟨hne, hcon⟩
  unfold canBeTown at hcb
  rw [List.all_eq_true] at hcb
  have hall := hcb q hmem
  obtain ⟨t, ht, htt⟩ := hq
  rw [ht] at hall
  simp only [decide_eq_true_eq] at hall
  exact hall htt

theorem isTown_promoteAt (tiles : List TileDefinition) (pos c : Axial)
    (h : isTown tiles c) : isTown (promoteAt tiles pos) c := by
  obtain ⟨t, ht, htt⟩ := h
  refine ⟨promoteTile pos t, ?_, ?_⟩
  · rw [tileAt_promoteAt, ht]
    rfl
  · unfold promoteTile
    by_cases hp : t.Position = pos
    · rw [if_pos hp]
    · rw [if_neg hp]
      exact htt

theorem isTown_promoteAt_ne (tiles : List TileDefinition) (pos c : Axial)
    (hne : c ≠ pos) : isTown (promoteAt tiles pos) c ↔ isTown tiles c := by
  unfold isTown
  rw [tileAt_promoteAt_ne tiles pos c hne]

theorem placeFold_count_mono (r : ℤ) :
    ∀ (cands : List Axial) (acc : List TileDefinition × ℕ),
      acc.2 ≤ (cands.foldl (placeStep r) acc).2 := by
  intro cands
  induction cands with
  | nil => intro acc; exact le_refl _
  | cons pos cands ih =>
    intro acc
    rw [List.foldl_cons]
    refine le_trans ?_ (ih (placeStep r acc pos))
    unfold placeStep
    by_cases hcb : canBeTown acc.1 pos r
    · rw [if_pos hcb]
      exact Nat.le_succ _
    · rw [if_neg hcb]

theorem placeFold_towns_mono (r : ℤ) :
    ∀ (cands : List Axial) (acc : List TileDefinition × ℕ),
      countTowns acc.1 ≤ countTowns (cands.foldl (placeStep r) acc).1 := by
  intro cands
  induction cands with
  | nil => intro acc; exact le_refl _
  | cons pos cands ih =>
    intro acc
    rw [List.foldl_cons]
    refine le_trans ?_ (ih (placeStep r acc pos))
    unfold placeStep
    by_cases hcb : canBeTown acc.1 pos r
    · rw [if_pos hcb]
      exact countTowns_promoteAt acc.1 pos
    · rw [if_neg hcb]

theorem placeFold_town_persist (r : ℤ) :
    ∀ (cands : List Axial) (acc : List TileDefinition × ℕ) (c : Axial),
      isTown acc.1 c → isTown (cands.foldl (placeStep r) acc).1 c := by
  intro cands
  induction cands with
  | nil => intro acc c hc; exact hc
  | cons pos cands ih =>
    intro acc c hc
    rw [List.foldl_cons]
    apply ih
    unfold placeStep
    by_cases hcb : canBeTown acc.1 pos r
    · rw [if_pos hcb]
      exact isTown_promoteAt acc.1 pos c hc
    · rw [if_neg hcb]
      exact hc

theorem placeFold_no_place (r : ℤ) :
    ∀ (cands : List Axial) (acc : List TileDefinition × ℕ),
      (cands.foldl (placeStep r) acc).2 = acc.2 →
      (cands.foldl (placeStep r) acc).1 = acc.1 := by
  intro cands
  induction cands with
  | nil => intro acc _; rfl
  | cons pos cands ih =>
    intro acc heq
    rw [List.foldl_cons] at heq ⊢
    by_cases hcb : canBeTown acc.1 pos r
    · exfalso
      have h1 := placeFold_count_mono r cands (placeStep r acc pos)
      have h2 : (placeStep r acc pos).2 = acc.2 + 1 := by
        unfold placeStep
        rw [if_pos hcb]
      omega
    · have h2 : placeStep r acc pos = acc := by
        unfold placeStep
        rw [if_neg hcb]
      rw [h2] at heq ⊢
      exact ih acc heq

theorem placeFold_positions (r : ℤ) :
    ∀ (cands : List Axial) (acc : List TileDefinition × ℕ),
      ((cands.foldl (placeStep r) acc)).1.map (fun t => t.Position) =
        acc.1.map fun t => t.Position := by
  intro cands
  induction cands with
  | nil => intro acc; rfl
  | cons pos cands ih =>
    intro acc
    rw [List.foldl_cons, ih (placeStep r acc pos)]
    unfold placeStep
    by_cases hcb : canBeTown acc.1 pos r
    · rw [if_pos hcb]
      exact promoteAt_positions acc.1 pos
    · rw [if_neg hcb]

theorem placeFold_spacing (ts0 : List TileDefinition) (r : ℤ) :
    ∀ (cands : List Axial) (acc : List TileDefinition × ℕ),
      (∀ c, isTown ts0 c → isTown acc.1 c) →
      (∀ p, isTown acc.1 p → ¬ isTown ts0 p →
        ∀ q, isTown acc.1 q → q ≠ p → (r : ℤ) < axialDist p q) →
      (∀ c, isTown ts0 c → isTown (cands.foldl (placeStep r) acc).1 c) ∧
      (∀ p, isTown (cands.foldl (placeStep r) acc).1 p → ¬ isTown ts0 p →
        ∀ q, isTown (cands.foldl (placeStep r) acc).1 q → q ≠ p →
          (r : ℤ) < axialDist p q) := by
  intro cands
  induction cands with
  | nil =>
    intro acc h1 h2
    exact ⟨h1, h2⟩
  | cons pos cands ih =>
    intro acc h1 h2
    rw [List.foldl_cons]
    by_cases hcb : canBeTown acc.1 pos r
    · have hstep : placeStep r acc pos = (promoteAt acc.1 pos, acc.2 + 1) := by
        unfold placeStep
        rw [if_pos hcb]
      rw [hstep]
      apply ih
      · intro c hc
        exact isTown_promoteAt acc.1 pos c (h1 c hc)
      · intro p hp hnp q hq hqp
        by_cases hppos : p = pos
        · subst hppos
          have hq2 : isTown acc.1 q := (isTown_promoteAt_ne acc.1 p q hqp).mp hq
          rw [axialDist_comm]
          exact canBeTown_spec hcb hq2 hqp
        · have hp2 : isTown acc.1 p := (isTown_promoteAt_ne acc.1 pos p hppos).mp hp
          by_cases hqpos : q = pos
          · subst hqpos
            exact canBeTown_spec hcb hp2 hppos
          · have hq2 : isTown acc.1 q := (isTown_promoteAt_ne acc.1 pos q hqpos).mp hq
            exact h2 p hp2 hnp q hq2 hqp
    · have hstep : placeStep r acc pos = acc := by
        unfold placeStep
        rw [if_neg hcb]
      rw [hstep]
      exact ih acc h1 h2

theorem placeFold_land (r : ℤ) :
    ∀ (cands : List Axial) (acc : List TileDefinition × ℕ),
      posNodup acc.1 → cands.Nodup →
      (∀ p ∈ cands, ∃ t, tileAt acc.1 p = some t ∧ t.Typ = TileType.Land) →
      countLand (cands.foldl (placeStep r) acc).1 + (cands.foldl (placeStep r) acc).2 =
        countLand acc.1 + acc.2 := by
  intro cands
  induction cands with
  | nil => intro acc _ _ _; rfl
  | cons pos cands ih =>
    intro acc hnd hcnd hfacts
    rw [List.foldl_cons]
    rw [List.nodup_cons] at hcnd
    by_cases hcb : canBeTown acc.1 pos r
    · have hstep : placeStep r acc pos = (promoteAt acc.1 pos, acc.2 + 1) := by
        unfold placeStep
        rw [if_pos hcb]
      rw [hstep]
      obtain ⟨t0, ht0, hL⟩ := hfacts pos (by simp)
      have hcount := countLand_promoteAt hnd ht0 hL
      have hih := ih (promoteAt acc.1 pos, acc.2 + 1)
        (by
          unfold posNodup
          rw [show (promoteAt acc.1 pos, acc.2 + 1).1 = promoteAt acc.1 pos from rfl,
            promoteAt_positions]
          exact hnd)
        hcnd.2
        (by
          intro p hp
          obtain ⟨t, ht, htl⟩ := hfacts p (by simp [hp])
          refine ⟨t, ?_, htl⟩
          rw [show (promoteAt acc.1 pos, acc.2 + 1).1 = promoteAt acc.1 pos from rfl,
            tileAt_promoteAt_ne]
          · exact ht
          · intro hcontra
            exact hcnd.1 (hcontra ▸ hp))
      have hproj1 : (promoteAt acc.1 pos, acc.2 + 1).1 = promoteAt acc.1 pos := rfl
      have hproj2 : (promoteAt acc.1 pos, acc.2 + 1).2 = acc.2 + 1 := rfl
      rw [hproj1, hproj2] at hih
      omega
    · have hstep : placeStep r acc pos = acc := by
        unfold placeStep
        rw [if_neg hcb]
      rw [hstep]
      exact ih acc hnd hcnd.2 (fun p hp => hfacts p (by simp [hp]))

theorem placeFold_pres (P : TileDefinition → Prop)
    (hP : ∀ t, P t → t.Typ = TileType.Land → P { t with Typ := TileType.Town })
    (r : ℤ) :
    ∀ (cands : List Axial) (acc : List TileDefinition × ℕ),
      posNodup acc.1 → cands.Nodup →
      (∀ p ∈ cands, ∃ t, tileAt acc.1 p = some t ∧ t.Typ = TileType.Land) →
      (∀ t ∈ acc.1, P t) →
      ∀ t ∈ (cands.foldl (placeStep r) acc).1, P t := by
  intro cands
  induction cands with
  | nil => intro acc _ _ _ hall; exact hall
  | cons pos cands ih =>
    intro acc hnd hcnd hfacts hall
    rw [List.foldl_cons]
    rw [List.nodup_cons] at hcnd
    by_cases hcb : canBeTown acc.1 pos r
    · have hstep : placeStep r acc pos = (promoteAt acc.1 pos, acc.2 + 1) := by
        unfold placeStep
        rw [if_pos hcb]
      rw [hstep]
      obtain ⟨t0, ht0, hL⟩ := hfacts pos (by simp)
      apply ih
      · unfold posNodup
        rw [show (promoteAt acc.1 pos, acc.2 + 1).1 = promoteAt acc.1 pos from rfl,
          promoteAt_positions]
        exact hnd
      · exact hcnd.2
      · intro p hp
        obtain ⟨t, ht, htl⟩ := hfacts p (by simp [hp])
        refine ⟨t, ?_, htl⟩
        rw [show (promoteAt acc.1 pos, acc.2 + 1).1 = promoteAt acc.1 pos from rfl,
          tileAt_promoteAt_ne]
        · exact ht
        · intro hcontra
          exact hcnd.1 (hcontra ▸ hp)
      · intro t ht
        rw [show (promoteAt acc.1 pos, acc.2 + 1).1 = promoteAt acc.1 pos from rfl] at ht
        unfold promoteAt at ht
        obtain ⟨u, hu, rfl⟩ := List.mem_map.mp ht
        unfold promoteTile
        by_cases hup : u.Position = pos
        · rw [if_pos hup]
          have huat : tileAt acc.1 pos = some u := by
            rw [← hup]
            exact tileAt_eq_of_mem hnd hu
          have hut0 : u = t0 := by
            rw [huat] at ht0
            cases ht0
            rfl
          exact hP u (hall u hu) (hut0 ▸ hL)
        · rw [if_neg hup]
          exact hall u hu
    · have hstep : placeStep r acc pos = acc := by
        unfold placeStep
        rw [if_neg hcb]
      rw [hstep]
      exact ih acc hnd hcnd.2 (fun p hp => hfacts p (by simp [hp])) hall

/- ### Placer loop lemmas -/

theorem placeRound_eq (tiles : List TileDefinition) (r : ℤ) (cands : List Axial) :
    placeRound tiles r cands = cands.foldl (placeStep r) (tiles, 0) := rfl

theorem townRound_tiles (sampler : Sampler) (total : ℤ) (s : TownState) :
    (townRound sampler total s).tiles =
      (placeRound s.tiles s.radius (sampler s.tiles (total - (s.townsGenerated : ℤ)))).1 := rfl

theorem townRound_towns (sampler : Sampler) (total : ℤ) (s : TownState) :
    (townRound sampler total s).townsGenerated =
      s.townsGenerated +
        (placeRound s.tiles s.radius (sampler s.tiles (total - (s.townsGenerated : ℤ)))).2 := rfl

theorem townRound_radius (sampler : Sampler) (total : ℤ) (s : TownState) :
    (townRound sampler total s).radius =
      if (if 0 < (placeRound s.tiles s.radius
            (sampler s.tiles (total - (s.townsGenerated : ℤ)))).2
          then s.retries else s.retries + 1) = 3
      then s.radius - 1 else s.radius := rfl

theorem townRound_retries (sampler : Sampler) (total : ℤ) (s : TownState) :
    (townRound sampler total s).retries =
      if (if 0 < (placeRound s.tiles s.radius
            (sampler s.tiles (total - (s.townsGenerated : ℤ)))).2
          then s.retries else s.retries + 1) = 3
      then 0
      else if 0 < (placeRound s.tiles s.radius
            (sampler s.tiles (total - (s.townsGenerated : ℤ)))).2
        then s.retries else s.retries + 1 := rfl

theorem townLoop_done {sampler : Sampler} {total : ℤ} {fuel : ℕ} {s : TownState}
    (hc : ¬((s.townsGenerated : ℤ) < total)) :
    townLoop sampler total fuel s = some (s, false) := by
  cases fuel with
  | zero =>
    unfold townLoop
    rw [if_neg hc]
  | succ n =>
    unfold townLoop
    rw [if_neg hc]

theorem townLoop_zero {sampler : Sampler} {total : ℤ} {s : TownState}
    (hc : (s.townsGenerated : ℤ) < total) : townLoop sampler total 0 s = none := by
  unfold townLoop
  rw [if_pos hc]

theorem townLoop_succ {sampler : Sampler} {total : ℤ} {fuel : ℕ} {s : TownState}
    (hc : (s.townsGenerated : ℤ) < total) :
    townLoop sampler total (fuel + 1) s =
      if (townRound sampler total s).radius = -1
      then some (townRound sampler total s, true)
      else townLoop sampler total fuel (townRound sampler total s) := by
  conv_lhs => unfold townLoop
  rw [if_pos hc]

theorem townRound_towns_mono (sampler : Sampler) (total : ℤ) (s : TownState) :
    countTowns s.tiles ≤ countTowns (townRound sampler total s).tiles := by
  rw [townRound_tiles, placeRound_eq]
  exact placeFold_towns_mono s.radius _ (s.tiles, 0)

theorem townLoop_towns_mono (sampler : Sampler) (total : ℤ) :
    ∀ (fuel : ℕ) (s : TownState) (out : TownState × Bool),
      townLoop sampler total fuel s = some out →
      countTowns s.tiles ≤ countTowns out.1.tiles := by
  intro fuel
  induction fuel with
  | zero =>
    intro s out hrun
    by_cases hc : (s.townsGenerated : ℤ) < total
    · rw [townLoop_zero hc] at hrun
      cases hrun
    · rw [townLoop_done hc] at hrun
      cases hrun
      exact le_refl _
  | succ fuel ih =>
    intro s out hrun
    by_cases hc : (s.townsGenerated : ℤ) < total
    · rw [townLoop_succ hc] at hrun
      by_cases hrad : (townRound sampler total s).radius = -1
      · rw [if_pos hrad] at hrun
        cases hrun
        exact townRound_towns_mono sampler total s
      · rw [if_neg hrad] at hrun
        exact le_trans (townRound_towns_mono sampler total s) (ih _ out hrun)
    · rw [townLoop_done hc] at hrun
      cases hrun
      exact le_refl _

theorem townRound_invariants (sampler : Sampler) (hs : SamplerOK sampler)
    (total : ℤ) (s : TownState) (hnd : posNodup s.tiles) :
    countLand (townRound sampler total s).tiles +
        (townRound sampler total s).townsGenerated =
      countLand s.tiles + s.townsGenerated ∧
    posNodup (townRound sampler total s).tiles := by
  obtain ⟨hcnd, hfacts⟩ := hs s.tiles (total - (s.townsGenerated : ℤ))
  constructor
  · rw [townRound_tiles, townRound_towns, placeRound_eq]
    have hland := placeFold_land s.radius
      (sampler s.tiles (total - (s.townsGenerated : ℤ))) (s.tiles, 0) hnd hcnd
      (fun p hp => hfacts p hp)
    dsimp only at hland
    omega
  · rw [townRound_tiles, placeRound_eq]
    unfold posNodup
    rw [placeFold_positions]
    exact hnd

theorem townLoop_under (sampler : Sampler) (hs : SamplerOK sampler) (total : ℤ) :
    ∀ (fuel : ℕ) (s : TownState) (out : TownState × Bool),
      townLoop sampler total fuel s = some out →
      posNodup s.tiles →
      ((s.townsGenerated : ℤ) + (countLand s.tiles : ℤ) < total) →
      out.2 = true ∧ ((out.1.townsGenerated : ℤ) < total) ∧ out.1.radius = -1 := by
  intro fuel
  induction fuel with
  | zero =>
    intro s out hrun hnd hlt
    by_cases hc : (s.townsGenerated : ℤ) < total
    · rw [townLoop_zero hc] at hrun
      cases hrun
    · exfalso
      omega
  | succ fuel ih =>
    intro s out hrun hnd hlt
    by_cases hc : (s.townsGenerated : ℤ) < total
    · rw [townLoop_succ hc] at hrun
      obtain ⟨hsum, hnd1⟩ := townRound_invariants sampler hs total s hnd
      have hlt1 : ((townRound sampler total s).townsGenerated : ℤ) +
          (countLand (townRound sampler total s).tiles : ℤ) < total := by
        omega
      by_cases hrad : (townRound sampler total s).radius = -1
      · rw [if_pos hrad] at hrun
        cases hrun
        refine ⟨rfl, ?_, hrad⟩
        show ((townRound sampler total s).townsGenerated : ℤ) < total
        omega
      · rw [if_neg hrad] at hrun
        exact ih _ out hrun hnd1 hlt1
    · exfalso
      omega

theorem townLoop_term (sampler : Sampler) (hs : SamplerOK sampler) (total : ℤ) :
    ∀ (fuel : ℕ) (s : TownState),
      posNodup s.tiles → 0 ≤ s.radius → s.retries ≤ 2 →
      countLand s.tiles + 3 * s.radius.toNat + (3 - s.retries) < fuel →
      (townLoop sampler total fuel s).isSome := by
  intro fuel
  induction fuel with
  | zero =>
    intro s _ _ hret hf
    omega
  | succ fuel ih =>
    intro s hnd hrad hret hf
    by_cases hc : (s.townsGenerated : ℤ) < total
    · rw [townLoop_succ hc]
      by_cases hradm : (townRound sampler total s).radius = -1
      · rw [if_pos hradm]
        rfl
      · rw [if_neg hradm]
        have hradius := townRound_radius sampler total s
        have hretries := townRound_retries sampler total s
        have htowns := townRound_towns sampler total s
        obtain ⟨hsum, hnd1⟩ := townRound_invariants sampler hs total s hnd
        by_cases hplaced : 0 < (placeRound s.tiles s.radius
            (sampler s.tiles (total - (s.townsGenerated : ℤ)))).2
        · rw [if_pos hplaced] at hradius hretries
          have hne3 : ¬(s.retries = 3) := by omega
          rw [if_neg hne3] at hradius hretries
          apply ih _ hnd1
          · rw [hradius]
            exact hrad
          · rw [hretries]
            exact hret
          · rw [hradius, hretries, htowns] at *
            omega
        · rw [if_neg hplaced] at hradius hretries
          have htiles1 : (townRound sampler total s).tiles = s.tiles := by
            rw [townRound_tiles, placeRound_eq]
            apply placeFold_no_place
            rw [placeRound_eq] at hplaced
            omega
          by_cases hr3 : s.retries + 1 = 3
          · rw [if_pos hr3] at hradius hretries
            have hrpos : 1 ≤ s.radius := by
              rcases lt_or_le s.radius 1 with hcon | hcon
              · exfalso
                apply hradm
                rw [hradius]
                omega
              · exact hcon
            apply ih _ (by rw [htiles1]; exact hnd)
            · rw [hradius]
              omega
            · rw [hretries]
              omega
            · rw [hradius, hretries, htiles1]
              omega
          · rw [if_neg hr3] at hradius hretries
            apply ih _ (by rw [htiles1]; exact hnd)
            · rw [hradius]
              exact hrad
            · rw [hretries]
              omega
            · rw [hradius, hretries, htiles1]
              omega
    · rw [townLoop_done hc]
      rfl

theorem townLoop_pres (sampler : Sampler) (hs : SamplerOK sampler) (total : ℤ)
    (P : TileDefinition → Prop)
    (hP : ∀ t, P t → t.Typ = TileType.Land → P { t with Typ := TileType.Town }) :
    ∀ (fuel : ℕ) (s : TownState) (out : TownState × Bool),
      townLoop sampler total fuel s = some out →
      posNodup s.tiles → (∀ t ∈ s.tiles, P t) → ∀ t ∈ out.1.tiles, P t := by
  intro fuel
  induction fuel with
  | zero =>
    intro s out hrun hnd hall
    by_cases hc : (s.townsGenerated : ℤ) < total
    · rw [townLoop_zero hc] at hrun
      cases hrun
    · rw [townLoop_done hc] at hrun
      cases hrun
      exact hall
  | succ fuel ih =>
    intro s out hrun hnd hall
    by_cases hc : (s.townsGenerated : ℤ) < total
    · rw [townLoop_succ hc] at hrun
      obtain ⟨hcnd, hfacts⟩ := hs s.tiles (total - (s.townsGenerated : ℤ))
      have hall1 : ∀ t ∈ (townRound sampler total s).tiles, P t := by
        rw [townRound_tiles, placeRound_eq]
        exact placeFold_pres P hP s.radius _ (s.tiles, 0) hnd hcnd
          (fun p hp => hfacts p hp) hall
      have hnd1 := (townRound_invariants sampler hs total s hnd).2
      by_cases hrad : (townRound sampler total s).radius = -1
      · rw [if_pos hrad] at hrun
        cases hrun
        exact hall1
      · rw [if_neg hrad] at hrun
        exact ih _ out hrun hnd1 hall1
    · rw [townLoop_done hc] at hrun
      cases hrun
      exact hall

/- ### Initial-grid facts -/

theorem buildTile_position (h : Axial → ℚ) (WL : ℚ) (gb : Bool) (c : Axial) :
    (buildTile h WL gb c).Position = c := rfl

theorem buildTiles_posNodup (h : Axial → ℚ) (WL : ℚ) (gb : Bool) (R : ℤ) :
    posNodup (buildTiles h WL gb R) := by
  unfold posNodup buildTiles
  rw [List.map_map]
  have hcomp : ((fun t : TileDefinition => t.Position) ∘ buildTile h WL gb) = id :=
    funext fun c => rfl
  rw [hcomp, List.map_id]
  exact axialDisk_nodup R

theorem getTileBiome_water {h : Axial → ℚ} {WL : ℚ} {c : Axial} (hw : h c ≤ WL) :
    getTileBiome h WL c = Biome.Water := by
  unfold getTileBiome
  rw [if_pos (by
    unfold tileHasWater
    exact decide_eq_true hw)]

theorem getTileBiome_ne_water {h : Axial → ℚ} {WL : ℚ} {c : Axial}
    (hw : ¬(h c ≤ WL)) : getTileBiome h WL c ≠ Biome.Water := by
  unfold getTileBiome
  rw [if_neg (by
    unfold tileHasWater
    simpa using hw)]
  by_cases h2 : tileIsCoastline h WL c
  · rw [if_pos h2]
    decide
  · rw [if_neg h2]
    by_cases h3 : 1/5 < h c
    · rw [if_pos h3]
      decide
    · rw [if_neg h3]
      by_cases h4 : 0 < h c
      · rw [if_pos h4]
        decide
      · rw [if_neg h4]
        decide

theorem demote_build_P (h : Axial → ℚ) (WL : ℚ) (gb : Bool) (R : ℤ) (v : Visited) :
    ∀ t ∈ demote v (buildTiles h WL gb R),
      t.Typ ≠ TileType.Water → t.Biome ≠ Biome.Water := by
  intro t ht
  unfold demote at ht
  obtain ⟨u, hu, rfl⟩ := List.mem_map.mp ht
  obtain ⟨_, hub⟩ := mem_buildTiles.mp hu
  unfold demoteTile
  by_cases hL : u.Typ = TileType.Land
  · rw [if_pos hL]
    rcases hv : vlookup v u.Position with _ | b
    · intro hty
      exact absurd rfl hty
    · cases b
      · intro hty
        exact absurd rfl hty
      · intro _
        have hw : ¬(h u.Position ≤ WL) := by
          intro hcon
          rw [hub] at hL
          unfold buildTile at hL
          simp only at hL
          rw [if_pos hcon] at hL
          cases hL
        rw [hub]
        unfold buildTile
        simp only
        by_cases hgb : gb
        · rw [if_pos hgb]
          exact getTileBiome_ne_water hw
        · rw [if_neg hgb]
          decide
  · rw [if_neg hL]
    intro hty
    rcases hu2 : u.Typ with _ | _ | _
    · exact absurd hu2 hL
    · exact absurd hu2 hty
    · have hw : ¬(h u.Position ≤ WL) := by
        intro hcon
        rw [hub] at hu2
        unfold buildTile at hu2
        simp only at hu2
        rw [if_pos hcon] at hu2
        cases hu2
      rw [hub]
      unfold buildTile
      simp only
      by_cases hgb : gb
      · rw [if_pos hgb]
        exact getTileBiome_ne_water hw
      · rw [if_neg hgb]
        decide

theorem demote_build_Q (h : Axial → ℚ) (WL : ℚ) (R : ℤ) (v : Visited) :
    ∀ t ∈ demote v (buildTiles h WL true R),
      t.Typ = TileType.Water → t.Biome = Biome.Water := by
  intro t ht
  unfold demote at ht
  obtain ⟨u, hu, rfl⟩ := List.mem_map.mp ht
  obtain ⟨_, hub⟩ := mem_buildTiles.mp hu
  unfold demoteTile
  by_cases hL : u.Typ = TileType.Land
  · rw [if_pos hL]
    rcases hv : vlookup v u.Position with _ | b
    · intro _
      rfl
    · cases b
      · intro _
        rfl
      · intro hty
        exact absurd hty (by rw [hL]; decide)
  · rw [if_neg hL]
    intro hty
    have hw : h u.Position ≤ WL := by
      by_contra hcon
      rw [hub] at hty
      unfold buildTile at hty
      simp only at hty
      rw [if_neg hcon] at hty
      cases hty
    rw [hub]
    unfold buildTile
    simp only
    rw [if_pos trivial]
    exact getTileBiome_water hw

/- ### Pipeline composition -/

theorem BuildMapDefinition_some {noise : ℚ → ℤ → Axial → ℚ} {sampler : Sampler}
    {randSeed : ℚ} {fuelFlood fuelTown : ℕ} {config : MapConfig}
    {fs : FloodState} {out : TownState × Bool}
    (hf : floodLoop (buildNoise noise randSeed config) (buildWL randSeed config)
        fuelFlood initFlood = some fs)
    (ht : townLoop sampler (resolveConfig randSeed config).TotalTowns fuelTown
        ⟨demote fs.visited (buildInitialTiles noise randSeed config), 0,
          min (resolveConfig randSeed config).Radius 10, 0⟩ = some out) :
    BuildMapDefinition noise sampler randSeed fuelFlood fuelTown config =
      some { Config := resolveConfig randSeed config, Tiles := out.1.tiles } := by
  unfold BuildMapDefinition
  rw [hf]
  dsimp only
  obtain ⟨ts, w⟩ := out
  rw [ht]

theorem BuildMapDefinition_inv {noise : ℚ → ℤ → Axial → ℚ} {sampler : Sampler}
    {randSeed : ℚ} {fuelFlood fuelTown : ℕ} {config : MapConfig}
    {md : MapDefinition}
    (hmd : BuildMapDefinition noise sampler randSeed fuelFlood fuelTown config = some md) :
    ∃ fs out,
      floodLoop (buildNoise noise randSeed config) (buildWL randSeed config)
          fuelFlood initFlood = some fs ∧
      townLoop sampler (resolveConfig randSeed config).TotalTowns fuelTown
          ⟨demote fs.visited (buildInitialTiles noise randSeed config), 0,
            min (resolveConfig randSeed config).Radius 10, 0⟩ = some out ∧
      md = { Config := resolveConfig randSeed config, Tiles := out.1.tiles } := by
  unfold BuildMapDefinition at hmd
  cases hf : floodLoop (buildNoise noise randSeed config) (buildWL randSeed config)
      fuelFlood initFlood with
  | none =>
    rw [hf] at hmd
    cases hmd
  | some fs =>
    rw [hf] at hmd
    dsimp only at hmd
    cases ht : townLoop sampler (resolveConfig randSeed config).TotalTowns fuelTown
        ⟨demote fs.visited (buildInitialTiles noise randSeed config), 0,
          min (resolveConfig randSeed config).Radius 10, 0⟩ with
    | none =>
      rw [ht] at hmd
      cases hmd
    | some out =>
      rw [ht] at hmd
      obtain ⟨ts, w⟩ := out
      cases hmd
      exact ⟨fs, (ts, w), rfl, ht, rfl⟩

theorem axialDist_eq_zero {a b : Axial} : axialDist a b = 0 ↔ a = b := by
  unfold axialDist cubeDistance
  cases a
  cases b
  simp only [Axial.mk.injEq]
  omega

theorem Reach_high {h : Axial → ℚ} {WL : ℚ} {c : Axial} (hr : Reach h WL c) :
    c = origin ∨ WL < h c := by
  cases hr with
  | origin => exact Or.inl rfl
  | step _ _ hh => exact Or.inr hh

/- ### Claim theorems -/

/-- C4: `getTileBiome` returns `Water` when the tile's own height is at
most `waterLevel` (the comparison is inclusive); otherwise `Coastline`
when at least one ring-1 neighbor's height is at most `waterLevel`;
otherwise `MountainSnow` for height strictly above `0.2`, `Mountain` for
height in `(0, 0.2]`, and `Grassland` for height at most `0` — and the
neighbor set consulted is exactly the cells at cube distance 1. -/
theorem c4_getTileBiome_spec (h : Axial → ℚ) (WL : ℚ) (c : Axial) :
    (h c ≤ WL → getTileBiome h WL c = Biome.Water) ∧
    (WL < h c → (∃ n ∈ getNearbyCoordinates c 1, h n ≤ WL) →
      getTileBiome h WL c = Biome.Coastline) ∧
    (WL < h c → (∀ n ∈ getNearbyCoordinates c 1, WL < h n) →
      ((1/5 < h c → getTileBiome h WL c = Biome.MountainSnow) ∧
       (0 < h c → h c ≤ 1/5 → getTileBiome h WL c = Biome.Mountain) ∧
       (h c ≤ 0 → getTileBiome h WL c = Biome.Grassland))) ∧
    (∀ n, n ∈ getNearbyCoordinates c 1 ↔ n ≠ c ∧ axialDist n c = 1) := by
  refine ⟨?_, ?_, ?_, ?_⟩
  · exact getTileBiome_water
  · intro hwc hex
    unfold getTileBiome
    rw [if_neg (by
      unfold tileHasWater
      simpa using not_le_of_lt hwc)]
    rw [if_pos (by
      unfold tileIsCoastline
      rw [List.any_eq_true]
      obtain ⟨n, hn, hlow⟩ := hex
      exact ⟨n, hn, by
        unfold tileHasWater
        exact decide_eq_true hlow⟩)]
  · intro hwc hall
    have hnc : ¬(tileIsCoastline h WL c = true) := by
      unfold tileIsCoastline
      rw [List.any_eq_true]
      rintro ⟨n, hn, hlow⟩
      unfold tileHasWater at hlow
      rw [decide_eq_true_eq] at hlow
      exact absurd hlow (not_le_of_lt (hall n hn))
    refine ⟨?_, ?_, ?_⟩
    · intro hms
      unfold getTileBiome
      rw [if_neg (by
        unfold tileHasWater
        simpa using not_le_of_lt hwc), if_neg hnc, if_pos hms]
    · intro hm1 hm2
      unfold getTileBiome
      rw [if_neg (by
        unfold tileHasWater
        simpa using not_le_of_lt hwc), if_neg hnc,
        if_neg (not_lt_of_le hm2), if_pos hm1]
    · intro hg
      unfold getTileBiome
      rw [if_neg (by
        unfold tileHasWater
        simpa using not_le_of_lt hwc), if_neg hnc,
        if_neg (by
          intro hcon
          have : (0 : ℚ) < h c := lt_trans (by norm_num) hcon
          exact absurd this (not_lt_of_le hg)),
        if_neg (not_lt_of_le hg)]
  · intro n
    rw [mem_getNearbyCoordinates]
    constructor
    · rintro ⟨hne, hle⟩
      refine ⟨hne, ?_⟩
      have h0 : axialDist n c ≠ 0 := fun hcon => hne (axialDist_eq_zero.mp hcon)
      omega
    · rintro ⟨hne, heq⟩
      exact ⟨hne, by omega⟩

/-- C4 witness at concrete inputs. -/
theorem c4_witness : getTileBiome (fun _ => (-1 : ℚ)) (-2/5) origin = Biome.Water ∧
    getTileBiome (fun c => if c = origin then (1 : ℚ) else -1) (-2/5) origin =
      Biome.Coastline :=
  ⟨(c4_getTileBiome_spec (fun _ => (-1 : ℚ)) (-2/5) origin).1 (by norm_num),
   (c4_getTileBiome_spec (fun c => if c = origin then (1 : ℚ) else -1) (-2/5)
       origin).2.1 (by norm_num)
     ⟨⟨1, 0⟩, by decide, by
       rw [if_neg (by decide)]
       norm_num⟩⟩

/-- C5: for every radius R ≥ 0 and any height function, the terrain grid
builder produces exactly 3R²+3R+1 tiles, with pairwise distinct
coordinates, and a tile exists at a coordinate iff the coordinate's cube
distance from the origin is at most R. -/
theorem c5_builder_count (h : Axial → ℚ) (WL : ℚ) (gb : Bool) (R : ℤ)
    (hR : 0 ≤ R) :
    ((buildTiles h WL gb R).length : ℤ) = 3 * R ^ 2 + 3 * R + 1 ∧
    posNodup (buildTiles h WL gb R) ∧
    ∀ c : Axial, (∃ t ∈ buildTiles h WL gb R, t.Position = c) ↔
      (cubeDistance c : ℤ) ≤ R := by
  refine ⟨?_, buildTiles_posNodup h WL gb R, ?_⟩
  · unfold buildTiles
    rw [List.length_map]
    exact axialDisk_length R hR
  · intro c
    constructor
    · rintro ⟨t, ht, rfl⟩
      exact (mem_buildTiles.mp ht).1
    · intro hd
      exact ⟨buildTile h WL gb c, mem_buildTiles.mpr ⟨hd, rfl⟩, rfl⟩

/-- C5 witness: R = 2 gives 19 tiles. -/
theorem c5_witness : ((buildTiles (fun _ => (0 : ℚ)) (-2/5) false 2).length : ℤ) = 19 := by
  have h1 := (c5_builder_count (fun _ => (0 : ℚ)) (-2/5) false 2 (by norm_num)).1
  rw [h1]
  norm_num

/-- A concrete decaying height function: 0 on the ring at distance 1,
-1 everywhere else (origin included). -/
def noiseRing : Axial → ℚ := fun c => if cubeDistance c = 1 then 0 else -1

/-- The state in which the flood fill over `noiseRing` halts. -/
def fsRing : FloodState :=
  ⟨[(⟨2, -2⟩, false), (⟨2, -1⟩, false), (⟨2, 0⟩, false), (⟨1, -2⟩, false),
    (⟨0, -2⟩, false), (⟨1, 1⟩, false), (⟨0, 2⟩, false), (⟨-1, -1⟩, false),
    (⟨-2, 0⟩, false), (⟨-1, 2⟩, false), (⟨-2, 1⟩, false), (⟨-2, 2⟩, false),
    (⟨1, -1⟩, true), (⟨1, 0⟩, true), (⟨0, -1⟩, true), (⟨0, 1⟩, true),
    (⟨-1, 0⟩, true), (⟨-1, 1⟩, true), (origin, true)],
   [origin, ⟨-1, 1⟩, ⟨-1, 0⟩, ⟨0, 1⟩, ⟨0, -1⟩, ⟨1, 0⟩, ⟨1, -1⟩], 7⟩

theorem floodRing_eq :
    floodLoop noiseRing defaultWaterLevel 10 initFlood = some fsRing := by
  decide

/-- C6 fails as stated: with the origin's height below the water level,
the origin tile of the built grid is Water-typed, yet the traversal marks
the origin reachable (it is seeded without a height test). -/
theorem c6_counterexample :
    floodLoop noiseRing defaultWaterLevel 10 initFlood = some fsRing ∧
    vlookup fsRing.visited origin = some true ∧
    ∃ t, tileAt (demote fsRing.visited
        (buildTiles noiseRing defaultWaterLevel false 1)) origin =
        some t ∧ t.Typ = TileType.Water := by
  refine ⟨floodRing_eq, by decide, ?_⟩
  refine ⟨⟨origin, TileType.Water, Biome.Grassland⟩, by decide, rfl⟩

/-- C6 amended: after the connectivity filter, every tile that is still
Land is reachable from the origin by ring-1 steps through cells whose
height exceeds the water level (the origin is traversable regardless of
its height, and path cells need not be map tiles); and no Water tile other
than the origin is marked reachable. -/
theorem c6_amended {h : Axial → ℚ} {WL : ℚ} {fuel : ℕ} {fs : FloodState}
    (hrun : floodLoop h WL fuel initFlood = some fs) (gb : Bool) (R : ℤ) :
    (∀ t ∈ demote fs.visited (buildTiles h WL gb R),
      t.Typ = TileType.Land → Reach h WL t.Position) ∧
    (∀ t ∈ demote fs.visited (buildTiles h WL gb R),
      t.Typ = TileType.Water → t.Position ≠ origin →
        vlookup fs.visited t.Position ≠ some true) := by
  constructor
  · intro t ht hL
    unfold demote at ht
    obtain ⟨u, hu, rfl⟩ := List.mem_map.mp ht
    rw [demoteTile_pos]
    by_cases hL2 : u.Typ = TileType.Land
    · rcases hv : vlookup fs.visited u.Position with _ | b
      · exfalso
        unfold demoteTile at hL
        rw [if_pos hL2, hv] at hL
        simp at hL
      · cases b with
        | false =>
          exfalso
          unfold demoteTile at hL
          rw [if_pos hL2, hv] at hL
          simp at hL
        | true =>
          exact (flood_visited_true_iff h WL hrun u.Position).mp hv
    · exfalso
      rw [demoteTile_notLand _ _ hL2] at hL
      exact hL2 hL
  · intro t ht htw hne htrue
    unfold demote at ht
    obtain ⟨u, hu, rfl⟩ := List.mem_map.mp ht
    rw [demoteTile_pos] at htrue hne
    by_cases hL : u.Typ = TileType.Land
    · rcases hv : vlookup fs.visited u.Position with _ | b
      · rw [hv] at htrue
        cases htrue
      · cases b with
        | false =>
          rw [hv] at htrue
          cases htrue
        | true =>
          rw [demoteTile_true _ _ hv] at htw
          rw [hL] at htw
          cases htw
    · rw [demoteTile_notLand _ _ hL] at htw
      obtain ⟨_, hub⟩ := mem_buildTiles.mp hu
      have hw : h u.Position ≤ WL := by
        by_contra hcon
        rw [hub] at htw
        unfold buildTile at htw
        simp only at htw
        rw [if_neg hcon] at htw
        cases htw
      have hreach := (flood_visited_true_iff h WL hrun u.Position).mp htrue
      rcases Reach_high hreach with heq | hhigh
      · exact hne heq
      · exact absurd hw (not_le_of_lt hhigh)

/-- C6 amended, witness: the kept Land tile at (1,0) is reachable. -/
theorem c6_witness : Reach noiseRing defaultWaterLevel ⟨1, 0⟩ := by
  have h1 := (c6_amended floodRing_eq false 1).1
  exact h1 ⟨⟨1, 0⟩, TileType.Land, Biome.Grassland⟩ (by decide) rfl

/-- C9 fails as stated: for the bounded, pure, deterministic height
function that is constantly 1 (which never decays below the water level),
the flood-fill traversal of the Island Connectivity Filter never exhausts
its queue — no amount of fuel makes the loop return. -/
theorem c9_counterexample :
    ¬ ∃ (fuel : ℕ) (fs : FloodState),
      floodLoop (fun _ => (1 : ℚ)) (-2/5) fuel initFlood = some fs := by
  rintro ⟨fuel, fs, hrun⟩
  have hnofalse : ∀ c : Axial, ¬((fun _ => (1 : ℚ)) c ≤ -2/5) := by
    intro c
    norm_num
  obtain ⟨horigin, hclosure⟩ := flood_halt_closure _ _ hrun hnofalse
  obtain ⟨c, hc, hmax⟩ := exists_max_cubeDistance fs.toVisit (List.ne_nil_of_mem horigin)
  obtain ⟨n, hn, hdist⟩ := exists_farther_neighbor c
  have hle := hmax n (hclosure c hc n hn)
  omega

/-- C9 amended: the filter cannot fail, and its traversal terminates with
the queue exhausted, provided the height function decays to or below the
water level beyond some cube distance D from the origin; fuel one more
than the number of cells within distance D always suffices. -/
theorem c9_amended (h : Axial → ℚ) (WL : ℚ) (D : ℕ)
    (hd : ∀ c : Axial, (D : ℤ) ≤ (cubeDistance c : ℤ) → h c ≤ WL) :
    ∃ fs, floodLoop h WL ((axialDisk (D : ℤ)).length + 1) initFlood = some fs ∧
      fs.toVisit[fs.visitIdx]? = none := by
  obtain ⟨fs, hfs⟩ := floodLoop_terminates h WL D hd
  obtain ⟨_, _, _, hhalt⟩ :=
    floodLoop_run h WL _ initFlood fs hfs (initFlood_inv h WL)
  exact ⟨fs, hfs, hhalt⟩

/-- C9 amended, witness: a height function below water everywhere decays
with D = 0, and the fill halts. -/
theorem c9_witness :
    ∃ fs, floodLoop (fun _ => (-1 : ℚ)) (-2/5)
        ((axialDisk ((0 : ℕ) : ℤ)).length + 1) initFlood = some fs ∧
      fs.toVisit[fs.visitIdx]? = none :=
  c9_amended (fun _ => (-1 : ℚ)) (-2/5) 0 (fun c _ => by norm_num)

/-- C10: the flood fill marks the origin reachable without ever sampling
its height (the run is unchanged under any reassignment of the origin's
height); the demotion pass rewrites only Land tiles; when the origin's
height is at most the water level, the built origin tile is Water-typed
and the filter leaves the origin tile unchanged; and every ring-1 neighbor
of the origin whose height exceeds the water level is marked reachable and
keeps its Land type in the filtered grid. -/
theorem c10_origin_water {h : Axial → ℚ} {WL : ℚ} {fuel : ℕ} {fs : FloodState}
    (hrun : floodLoop h WL fuel initFlood = some fs) :
    vlookup fs.visited origin = some true ∧
    (∀ h2 : Axial → ℚ, (∀ c, c ≠ origin → h c = h2 c) →
      floodLoop h2 WL fuel initFlood = some fs) ∧
    (∀ v t, t.Typ ≠ TileType.Land → demoteTile v t = t) ∧
    (h origin ≤ WL → ∀ gb R,
      tileAt (demote fs.visited (buildTiles h WL gb R)) origin =
        tileAt (buildTiles h WL gb R) origin ∧
      ∀ t, tileAt (buildTiles h WL gb R) origin = some t →
        t.Typ = TileType.Water) ∧
    (∀ n ∈ getNearbyCoordinates origin 1, WL < h n →
      vlookup fs.visited n = some true ∧
      ∀ gb R t, tileAt (demote fs.visited (buildTiles h WL gb R)) n = some t →
        t.Typ = TileType.Land) := by
  obtain ⟨inv, _, _, _⟩ :=
    floodLoop_run h WL fuel initFlood fs hrun (initFlood_inv h WL)
  have horigin : vlookup fs.visited origin = some true := inv.pair.originTrue
  refine ⟨horigin, ?_, ?_, ?_, ?_⟩
  · intro h2 hagree
    rw [← floodLoop_congr h h2 WL hagree fuel initFlood (by exact rfl)]
    exact hrun
  · intro v t ht
    exact demoteTile_notLand v t ht
  · intro hwater gb R
    have htyp : ∀ t, tileAt (buildTiles h WL gb R) origin = some t →
        t.Typ = TileType.Water := by
      intro t ht
      have hpos := tileAt_some_pos ht
      obtain ⟨_, hub⟩ := mem_buildTiles.mp (tileAt_mem ht)
      rw [hub]
      unfold buildTile
      simp only
      rw [hpos, if_pos hwater]
    refine ⟨?_, htyp⟩
    rw [tileAt_demote]
    cases ht : tileAt (buildTiles h WL gb R) origin with
    | none => rfl
    | some t =>
      show some (demoteTile fs.visited t) = some t
      rw [demoteTile_notLand fs.visited t (by
        rw [htyp t ht]
        decide)]
  · intro n hn hhigh
    have hreach : Reach h WL n := Reach.step Reach.origin hn hhigh
    have htrue : vlookup fs.visited n = some true :=
      (flood_visited_true_iff h WL hrun n).mpr hreach
    refine ⟨htrue, ?_⟩
    intro gb R t ht
    rw [tileAt_demote] at ht
    cases hu : tileAt (buildTiles h WL gb R) n with
    | none =>
      rw [hu] at ht
      cases ht
    | some u =>
      rw [hu] at ht
      have ht2 : some (demoteTile fs.visited u) = some t := ht
      have hpos := tileAt_some_pos hu
      obtain ⟨_, hub⟩ := mem_buildTiles.mp (tileAt_mem hu)
      have huL : u.Typ = TileType.Land := by
        rw [hub]
        unfold buildTile
        simp only
        rw [hpos, if_neg (not_le_of_lt hhigh)]
      have hdu : demoteTile fs.visited u = u := by
        apply demoteTile_true
        rw [hpos]
        exact htrue
      rw [hdu] at ht2
      cases ht2
      exact huL

/-- C10 witness over the concrete `noiseRing` run. -/
theorem c10_witness :
    vlookup fsRing.visited origin = some true ∧
    tileAt (demote fsRing.visited (buildTiles noiseRing defaultWaterLevel false 1))
        origin =
      tileAt (buildTiles noiseRing defaultWaterLevel false 1) origin := by
  have hc10 := c10_origin_water floodRing_eq
  exact ⟨hc10.1, (hc10.2.2.2.1 (by decide) false 1).1⟩

/-- C7: across the rounds of the placer the Town count never decreases;
and within one round, any two distinct Towns of which at least one was
promoted this round (including pairs whose second member was promoted
later in the same round) lie strictly farther apart than the round's
exclusion radius — a candidate is rejected whenever some tile within cube
distance `exclusionRadius` is already a Town. -/
theorem c7_placer_spacing (sampler : Sampler) (total : ℤ) :
    (∀ (fuel : ℕ) (s : TownState) (out : TownState × Bool),
      townLoop sampler total fuel s = some out →
      countTowns s.tiles ≤ countTowns out.1.tiles) ∧
    (∀ (tiles : List TileDefinition) (r : ℤ) (cands : List Axial) (p q : Axial),
      isTown (placeRound tiles r cands).1 p → ¬ isTown tiles p →
      isTown (placeRound tiles r cands).1 q → q ≠ p →
      (r : ℤ) < axialDist p q) := by
  constructor
  · exact townLoop_towns_mono sampler total
  · intro tiles r cands p q hp hnp hq hqp
    have hsp := placeFold_spacing tiles r cands (tiles, 0) (fun c hc => hc)
      (fun p0 hp0 hnp0 => absurd hp0 hnp0)
    rw [placeRound_eq] at hp hq
    exact hsp.2 p hp hnp q hq hqp

/-- Grid for the C7 witness: two Land tiles three cells apart. -/
def tilesW : List TileDefinition :=
  [⟨⟨0, 0⟩, TileType.Land, Biome.Grassland⟩,
   ⟨⟨3, 0⟩, TileType.Land, Biome.Grassland⟩]

/-- C7 witness: with exclusion radius 1 both candidates are promoted in
one round, and the spacing bound holds for the resulting pair. -/
theorem c7_witness : (1 : ℤ) < axialDist ⟨0, 0⟩ ⟨3, 0⟩ ∧
    countTowns (⟨[], 0, 0, 0⟩ : TownState).tiles ≤
      countTowns ((⟨[], 0, 0, 0⟩ : TownState), false).1.tiles := by
  constructor
  · refine (c7_placer_spacing (fun _ _ => []) 0).2 tilesW 1 [⟨0, 0⟩, ⟨3, 0⟩]
      ⟨0, 0⟩ ⟨3, 0⟩ ?_ ?_ ?_ ?_
    · exact ⟨⟨⟨0, 0⟩, TileType.Town, Biome.Grassland⟩, by decide, rfl⟩
    · rintro ⟨t, ht, htt⟩
      have := tileAt_some_pos ht
      rw [show tileAt tilesW ⟨0, 0⟩ =
        some ⟨⟨0, 0⟩, TileType.Land, Biome.Grassland⟩ from by decide] at ht
      cases ht
      exact absurd htt (by decide)
    · exact ⟨⟨⟨3, 0⟩, TileType.Town, Biome.Grassland⟩, by decide, rfl⟩
    · decide
  · exact (c7_placer_spacing (fun _ _ => []) 0).1 1 ⟨[], 0, 0, 0⟩
      (⟨[], 0, 0, 0⟩, false) (by decide)

/-- The sampler that never returns a candidate satisfies the sampler
contract. -/
theorem emptySampler_ok : SamplerOK fun _ _ => [] := by
  intro tiles n
  exact ⟨List.nodup_nil, fun p hp => absurd hp (List.not_mem_nil p)⟩

/-- Config for the C1 counterexample: radius 0, biome generation off,
explicit water level and seed, all-water noise. -/
def cfgC1 : MapConfig :=
  { Radius := 0, DepthScale := 1, TotalTowns := 0,
    GenerateBiomes := some false, WaterLevel := some defaultWaterLevel,
    Seed := some 0 }

/-- C1 fails as stated: with `GenerateBiomes = false` the built map holds
a Water-typed tile whose biome is Grassland, not Water. -/
theorem c1_counterexample :
    BuildMapDefinition (fun _ _ _ => (-1 : ℚ)) (fun _ _ => []) 0 2 0 cfgC1 =
      some { Config := cfgC1,
             Tiles := [⟨origin, TileType.Water, Biome.Grassland⟩] } ∧
    ∃ t ∈ [(⟨origin, TileType.Water, Biome.Grassland⟩ : TileDefinition)],
      t.Typ = TileType.Water ∧ t.Biome ≠ Biome.Water := by
  exact ⟨by decide, by decide⟩

/-- C1 amended: in every map the pipeline returns, no Town tile carries
the Water biome (for every value of GenerateBiomes); and when
GenerateBiomes is true, every Water-typed tile carries the Water biome.
(When GenerateBiomes is false or omitted the invariant fails: as the
counterexample shows, a returned map can hold a Water-typed tile whose
biome is Grassland.) -/
theorem c1_amended {noise : ℚ → ℤ → Axial → ℚ} {sampler : Sampler}
    {randSeed : ℚ} {fuelFlood fuelTown : ℕ} {config : MapConfig}
    {md : MapDefinition} (hs : SamplerOK sampler)
    (hmd : BuildMapDefinition noise sampler randSeed fuelFlood fuelTown config =
      some md) :
    (∀ t ∈ md.Tiles, t.Typ = TileType.Town → t.Biome ≠ Biome.Water) ∧
    (config.GenerateBiomes = some true →
      ∀ t ∈ md.Tiles, t.Typ = TileType.Water → t.Biome = Biome.Water) := by
  obtain ⟨fs, out, hf, ht, rfl⟩ := BuildMapDefinition_inv hmd
  have hnd0 : posNodup (demote fs.visited (buildInitialTiles noise randSeed config)) := by
    unfold posNodup
    rw [demote_positions]
    exact buildTiles_posNodup _ _ _ _
  constructor
  · intro t htm htt
    have hP := townLoop_pres sampler hs _
      (fun u => u.Typ ≠ TileType.Water → u.Biome ≠ Biome.Water)
      (fun u hPu hL _ => hPu (by
        rw [hL]
        decide))
      fuelTown _ out ht hnd0
      (demote_build_P _ _ _ _ _)
      t htm
    exact hP (by
      rw [htt]
      decide)
  · intro hgb t htm htw
    have hgb2 : (resolveConfig randSeed config).GenerateBiomes = some true := hgb
    have hinit : buildInitialTiles noise randSeed config =
        buildTiles (buildNoise noise randSeed config) (buildWL randSeed config)
          true (resolveConfig randSeed config).Radius := by
      unfold buildInitialTiles
      rw [hgb2]
      simp
    have hQ := townLoop_pres sampler hs _
      (fun u => u.Typ = TileType.Water → u.Biome = Biome.Water)
      (fun u hQu hL hcon => by
        have hcon2 : TileType.Town = TileType.Water := hcon
        cases hcon2)
      fuelTown _ out ht hnd0
      (by
        show ∀ u ∈ demote fs.visited (buildInitialTiles noise randSeed config),
          u.Typ = TileType.Water → u.Biome = Biome.Water
        rw [hinit]
        exact demote_build_Q _ _ _ _)
      t htm
    exact hQ htw

/-- Config for the C1 amended witness: biome generation on. -/
def cfgC1W : MapConfig :=
  { Radius := 1, DepthScale := 1, TotalTowns := 0,
    GenerateBiomes := some true, WaterLevel := some defaultWaterLevel,
    Seed := some 0 }

/-- The map built for the C1 amended witness. -/
def mdC1W : MapDefinition :=
  { Config := cfgC1W
    Tiles := [⟨⟨-1, 1⟩, TileType.Land, Biome.Coastline⟩,
              ⟨⟨-1, 0⟩, TileType.Land, Biome.Coastline⟩,
              ⟨⟨0, 1⟩, TileType.Land, Biome.Coastline⟩,
              ⟨⟨0, 0⟩, TileType.Water, Biome.Water⟩,
              ⟨⟨0, -1⟩, TileType.Land, Biome.Coastline⟩,
              ⟨⟨1, 0⟩, TileType.Land, Biome.Coastline⟩,
              ⟨⟨1, -1⟩, TileType.Land, Biome.Coastline⟩] }

/-- C1 amended, witness over a concrete biome-generating run: the
Water-typed origin tile of the built map carries the Water biome. -/
theorem c1_witness :
    (⟨⟨0, 0⟩, TileType.Water, Biome.Water⟩ : TileDefinition) ∈ mdC1W.Tiles ∧
    (⟨⟨0, 0⟩, TileType.Water, Biome.Water⟩ : TileDefinition).Biome = Biome.Water := by
  have h1 := (c1_amended emptySampler_ok
    (show BuildMapDefinition (fun _ _ => noiseRing) (fun _ _ => []) 0 10 0 cfgC1W =
      some mdC1W from by decide)).2 rfl
  exact ⟨by decide, h1 ⟨⟨0, 0⟩, TileType.Water, Biome.Water⟩ (by decide) rfl⟩

/-- Config for the C2 counterexample: negative radius and negative
totalTowns, seed and water level explicit. -/
def cfgC2 : MapConfig :=
  { Radius := -1, DepthScale := 1, TotalTowns := -1,
    GenerateBiomes := none, WaterLevel := some defaultWaterLevel,
    Seed := some 0 }

/-- C2 fails as stated: for a configuration with negative radius and
negative totalTowns, generation does not refuse to run — a MapDefinition
(with an empty tile grid) is returned to the caller. -/
theorem c2_counterexample :
    BuildMapDefinition (fun _ _ _ => (-1 : ℚ)) (fun _ _ => []) 0 2 0 cfgC2 =
      some { Config := cfgC2, Tiles := [] } := by
  decide

/-- C2 amended: the generator performs no construction-time validation.
For every configuration with negative radius and negative totalTowns,
whenever the flood fill terminates, BuildMapDefinition returns a
MapDefinition whose tile grid is empty, without running a placement
round. -/
theorem c2_amended {noise : ℚ → ℤ → Axial → ℚ} {sampler : Sampler}
    {randSeed : ℚ} {fuelFlood fuelTown : ℕ} {config : MapConfig}
    {fs : FloodState}
    (hrad : config.Radius < 0) (htot : config.TotalTowns < 0)
    (hf : floodLoop (buildNoise noise randSeed config) (buildWL randSeed config)
        fuelFlood initFlood = some fs) :
    BuildMapDefinition noise sampler randSeed fuelFlood fuelTown config =
      some { Config := resolveConfig randSeed config, Tiles := [] } := by
  have hres : (resolveConfig randSeed config).Radius = config.Radius := rfl
  have hres2 : (resolveConfig randSeed config).TotalTowns = config.TotalTowns := rfl
  have hdisk : axialDisk (resolveConfig randSeed config).Radius = [] := by
    rw [hres]
    unfold axialDisk intRange
    have h0 : (config.Radius + 1 - -config.Radius).toNat = 0 := by omega
    rw [h0]
    rfl
  have hempty : buildInitialTiles noise randSeed config = [] := by
    unfold buildInitialTiles buildTiles
    rw [hdisk]
    rfl
  have hdone : townLoop sampler (resolveConfig randSeed config).TotalTowns fuelTown
      ⟨demote fs.visited (buildInitialTiles noise randSeed config), 0,
        min (resolveConfig randSeed config).Radius 10, 0⟩ =
      some (⟨demote fs.visited (buildInitialTiles noise randSeed config), 0,
        min (resolveConfig randSeed config).Radius 10, 0⟩, false) :=
    townLoop_done (by
      show ¬(((0 : ℕ) : ℤ) < (resolveConfig randSeed config).TotalTowns)
      rw [hres2]
      omega)
  have hb := BuildMapDefinition_some hf hdone
  rw [hb]
  dsimp only
  rw [hempty]
  rfl

/-- The final flood state for an everywhere-below-water height function. -/
def fsAllWater : FloodState :=
  ⟨[(⟨1, -1⟩, false), (⟨1, 0⟩, false), (⟨0, -1⟩, false), (⟨0, 1⟩, false),
    (⟨-1, 0⟩, false), (⟨-1, 1⟩, false), (origin, true)], [origin], 1⟩

/-- C2 amended, witness at the concrete negative configuration. -/
theorem c2_witness :
    BuildMapDefinition (fun _ _ _ => (-1 : ℚ)) (fun _ _ => []) 1 3 5 cfgC2 =
      some { Config := resolveConfig 1 cfgC2, Tiles := [] } :=
  c2_amended (by decide) (by decide)
    (show floodLoop (buildNoise (fun _ _ _ => (-1 : ℚ)) 1 cfgC2)
        (buildWL 1 cfgC2) 3 initFlood = some fsAllWater from by decide)

/-- Config for the C3 counterexample: Seed and WaterLevel absent. -/
def cfgC3 : MapConfig :=
  { Radius := 0, DepthScale := 1, TotalTowns := 0,
    GenerateBiomes := none, WaterLevel := none, Seed := none }

/-- C3 fails as stated: when Seed and WaterLevel are initially absent,
generation writes the resolved defaults into the caller's configuration
record (the returned Config is that record after the call), so the fields
do not hold the same values as before. -/
theorem c3_counterexample :
    ∃ md, BuildMapDefinition (fun _ _ _ => (-1 : ℚ)) (fun _ _ => []) 7 2 0 cfgC3 =
        some md ∧
      md.Config.WaterLevel ≠ cfgC3.WaterLevel ∧
      md.Config.Seed ≠ cfgC3.Seed := by
  refine ⟨{ Config := resolveConfig 7 cfgC3,
            Tiles := [⟨origin, TileType.Water, Biome.Grassland⟩] },
    by decide, by decide, by decide⟩

/-- C3 amended: the caller's configuration is mutated exactly by default
resolution: when Seed and WaterLevel are both present the record is
unchanged; every other field is always unchanged; and the Config of the
returned map is precisely the resolved record. -/
theorem c3_amended (randSeed : ℚ) (c : MapConfig) :
    (c.Seed.isSome → c.WaterLevel.isSome → resolveConfig randSeed c = c) ∧
    (resolveConfig randSeed c).Radius = c.Radius ∧
    (resolveConfig randSeed c).DepthScale = c.DepthScale ∧
    (resolveConfig randSeed c).TotalTowns = c.TotalTowns ∧
    (resolveConfig randSeed c).GenerateBiomes = c.GenerateBiomes ∧
    (∀ (noise : ℚ → ℤ → Axial → ℚ) (sampler : Sampler)
        (fuelFlood fuelTown : ℕ) (md : MapDefinition),
      BuildMapDefinition noise sampler randSeed fuelFlood fuelTown c = some md →
      md.Config = resolveConfig randSeed c) := by
  refine ⟨?_, rfl, rfl, rfl, rfl, ?_⟩
  · intro hs hw
    obtain ⟨R, D, T, G, W, S⟩ := c
    rcases S with _ | sv
    · cases hs
    · rcases W with _ | wv
      · cases hw
      · rfl
  · intro noise sampler fuelFlood fuelTown md hmd
    obtain ⟨fs, out, _, _, rfl⟩ := BuildMapDefinition_inv hmd
    rfl

/-- C3 amended, witness: a fully-specified config is returned unchanged. -/
theorem c3_witness : resolveConfig 0 cfgC1 = cfgC1 :=
  (c3_amended 0 cfgC1).1 (by decide) (by decide)

/- ### C8: under-placement -/

theorem townLoop_runaway (sampler : Sampler) (total : ℤ)
    (hsampler : ∀ tiles n, sampler tiles n = []) :
    ∀ (fuel : ℕ) (s : TownState), s.radius ≤ -2 →
      ((s.townsGenerated : ℤ) < total) →
      townLoop sampler total fuel s = none := by
  intro fuel
  induction fuel with
  | zero =>
    intro s _ hc
    exact townLoop_zero hc
  | succ fuel ih =>
    intro s hr hc
    rw [townLoop_succ hc]
    have hplaced : (placeRound s.tiles s.radius
        (sampler s.tiles (total - (s.townsGenerated : ℤ)))).2 = 0 := by
      rw [hsampler]
      rfl
    have hradius := townRound_radius sampler total s
    have htowns := townRound_towns sampler total s
    rw [hplaced] at hradius htowns
    have h00 : ¬(0 < (0 : ℕ)) := by omega
    rw [if_neg h00] at hradius
    have hrad1 : (townRound sampler total s).radius ≤ -2 := by
      rw [hradius]
      by_cases h3 : s.retries + 1 = 3
      · rw [if_pos h3]
        omega
      · rw [if_neg h3]
        omega
    have hne1 : ¬((townRound sampler total s).radius = -1) := by omega
    rw [if_neg hne1]
    apply ih
    · exact hrad1
    · rw [htowns]
      omega

/-- Config for the C8 counterexample: Radius -2, so the initial exclusion
radius is -2 and the decrement skips the -1 sentinel. -/
def cfgC8 : MapConfig :=
  { Radius := -2, DepthScale := 1, TotalTowns := 1,
    GenerateBiomes := none, WaterLevel := some defaultWaterLevel,
    Seed := some 0 }

/-- C8 fails as stated: with Radius -2 the grid is empty (0 Land tiles,
fewer than totalTowns = 1), yet the placer never terminates — the
exclusion radius starts at -2 and the decrement never reaches -1, so no
MapDefinition is ever returned. -/
theorem c8_counterexample :
    ¬ ∃ (fuelTown : ℕ) (md : MapDefinition),
      BuildMapDefinition (fun _ _ _ => (-1 : ℚ)) (fun _ _ => []) 0 2 fuelTown
        cfgC8 = some md := by
  rintro ⟨fuelTown, md, hmd⟩
  obtain ⟨fs, out, hf, ht, _⟩ := BuildMapDefinition_inv hmd
  have hnone := townLoop_runaway (fun _ _ => []) (resolveConfig 0 cfgC8).TotalTowns
    (fun tiles n => rfl) fuelTown
    ⟨demote fs.visited (buildInitialTiles (fun _ _ _ => (-1 : ℚ)) 0 cfgC8), 0,
      min (resolveConfig 0 cfgC8).Radius 10, 0⟩
    (show min (resolveConfig 0 cfgC8).Radius 10 ≤ -2 from by decide)
    (show ((0 : ℕ) : ℤ) < (resolveConfig 0 cfgC8).TotalTowns from by decide)
  rw [hnone] at ht
  cases ht

theorem townLoop_neg1 (sampler : Sampler) (total : ℤ) (s : TownState)
    (hr : s.radius = -1) (hret : s.retries = 0)
    (hc : (s.townsGenerated : ℤ) < total) :
    (townLoop sampler total 1 s).isSome := by
  rw [townLoop_succ hc]
  have hradius := townRound_radius sampler total s
  rw [hret] at hradius
  have h03 : ¬((0 : ℕ) = 3) := by omega
  have h13 : ¬((0 : ℕ) + 1 = 3) := by omega
  by_cases hp : 0 < (placeRound s.tiles s.radius
      (sampler s.tiles (total - (s.townsGenerated : ℤ)))).2
  · rw [if_pos hp, if_neg h03] at hradius
    have heq : (townRound sampler total s).radius = -1 := by
      rw [hradius]
      exact hr
    rw [if_pos heq]
    rfl
  · rw [if_neg hp, if_neg h13] at hradius
    have heq : (townRound sampler total s).radius = -1 := by
      rw [hradius]
      exact hr
    rw [if_pos heq]
    rfl

/-- C8 amended: provided the initial exclusion radius `min(Radius, 10)` is
at least -1 and the sampler meets its contract, whenever totalTowns
exceeds the number of Land tiles left after filtering, the placer
terminates by exclusion-radius exhaustion (radius -1) with the
under-placement warning raised (not an error), strictly fewer Towns than
requested, and the pipeline still returns a complete MapDefinition. -/
theorem c8_amended {noise : ℚ → ℤ → Axial → ℚ} {sampler : Sampler}
    {randSeed : ℚ} {fuelFlood : ℕ} {config : MapConfig} {fs : FloodState}
    (hs : SamplerOK sampler)
    (hf : floodLoop (buildNoise noise randSeed config) (buildWL randSeed config)
        fuelFlood initFlood = some fs)
    (hrad : -1 ≤ min (resolveConfig randSeed config).Radius 10)
    (hless : (countLand (demote fs.visited (buildInitialTiles noise randSeed config)) : ℤ) <
      (resolveConfig randSeed config).TotalTowns) :
    ∃ (fuelTown : ℕ) (out : TownState × Bool),
      townLoop sampler (resolveConfig randSeed config).TotalTowns fuelTown
        ⟨demote fs.visited (buildInitialTiles noise randSeed config), 0,
          min (resolveConfig randSeed config).Radius 10, 0⟩ = some out ∧
      out.2 = true ∧
      ((out.1.townsGenerated : ℤ) < (resolveConfig randSeed config).TotalTowns) ∧
      out.1.radius = -1 ∧
      BuildMapDefinition noise sampler randSeed fuelFlood fuelTown config =
        some { Config := resolveConfig randSeed config, Tiles := out.1.tiles } := by
  have hnd1 : posNodup (demote fs.visited (buildInitialTiles noise randSeed config)) := by
    unfold posNodup
    rw [demote_positions]
    exact buildTiles_posNodup _ _ _ _
  have hterm : ∃ fuelTown : ℕ,
      (townLoop sampler (resolveConfig randSeed config).TotalTowns fuelTown
        ⟨demote fs.visited (buildInitialTiles noise randSeed config), 0,
          min (resolveConfig randSeed config).Radius 10, 0⟩).isSome := by
    rcases eq_or_lt_of_le hrad with he | hl
    · refine ⟨1, townLoop_neg1 sampler (resolveConfig randSeed config).TotalTowns
        ⟨demote fs.visited (buildInitialTiles noise randSeed config), 0,
          min (resolveConfig randSeed config).Radius 10, 0⟩ ?_ rfl ?_⟩
      · exact he.symm
      · show ((0 : ℕ) : ℤ) < (resolveConfig randSeed config).TotalTowns
        omega
    · refine ⟨countLand (demote fs.visited (buildInitialTiles noise randSeed config)) +
        3 * (min (resolveConfig randSeed config).Radius 10).toNat + 4, ?_⟩
      apply townLoop_term sampler hs
      · exact hnd1
      · show (0 : ℤ) ≤ min (resolveConfig randSeed config).Radius 10
        omega
      · show (0 : ℕ) ≤ 2
        omega
      · show countLand (demote fs.visited (buildInitialTiles noise randSeed config)) +
            3 * (min (resolveConfig randSeed config).Radius 10).toNat + (3 - 0) <
          countLand (demote fs.visited (buildInitialTiles noise randSeed config)) +
            3 * (min (resolveConfig randSeed config).Radius 10).toNat + 4
        omega
  obtain ⟨fuelTown, hsome⟩ := hterm
  obtain ⟨out, hout⟩ := Option.isSome_iff_exists.mp hsome
  have hund := townLoop_under sampler hs _ fuelTown _ out hout hnd1
    (show ((0 : ℕ) : ℤ) +
        (countLand (demote fs.visited (buildInitialTiles noise randSeed config)) : ℤ) <
        (resolveConfig randSeed config).TotalTowns from by omega)
  exact ⟨fuelTown, out, hout, hund.1, hund.2.1, hund.2.2,
    BuildMapDefinition_some hf hout⟩

/-- Config for the C8 amended witness: radius 0, one requested town. -/
def cfgC8W : MapConfig :=
  { Radius := 0, DepthScale := 1, TotalTowns := 1,
    GenerateBiomes := none, WaterLevel := some defaultWaterLevel,
    Seed := some 0 }

/-- C8 amended, witness: radius 0, all-water noise (0 Land tiles),
totalTowns 1. -/
theorem c8_witness :
    ∃ (fuelTown : ℕ) (out : TownState × Bool),
      townLoop (fun _ _ => []) (resolveConfig 0 cfgC8W).TotalTowns fuelTown
        ⟨demote fsAllWater.visited
            (buildInitialTiles (fun _ _ _ => (-1 : ℚ)) 0 cfgC8W), 0,
          min (resolveConfig 0 cfgC8W).Radius 10, 0⟩ = some out ∧
      out.2 = true ∧
      ((out.1.townsGenerated : ℤ) < (resolveConfig 0 cfgC8W).TotalTowns) ∧
      out.1.radius = -1 ∧
      BuildMapDefinition (fun _ _ _ => (-1 : ℚ)) (fun _ _ => []) 0 3 fuelTown
        cfgC8W = some { Config := resolveConfig 0 cfgC8W, Tiles := out.1.tiles } :=
  c8_amended emptySampler_ok
    (show floodLoop (buildNoise (fun _ _ _ => (-1 : ℚ)) 0 cfgC8W)
        (buildWL 0 cfgC8W) 3 initFlood = some fsAllWater from by decide)
    (by decide) (by decide)

end IslandCrisis
